import Mathlib

/-!
Verification development for the LetterboxdWrapped ingestion pipeline and
analytics layer (src/build_database.py, src/general_analysis.py,
src/top5_analysis.py).

The SQLite store is embedded as explicit lists of rows; the TMDB service is
embedded as a response function (so two runs with the same `Api` are two runs
with the same external responses).  Python string primitives used by the
importer (`str.strip`, `str.lower`, `float(...)`, `int(...)`, slicing,
lexicographic comparison) are embedded as executable functions over the
character list of a `String`.  SQLite `REAL` values (ratings, averages) are
embedded as `Rat`.
-/

/-- Python `str.isspace` characters relevant to `str.strip()`. -/
def pySpace (c : Char) : Bool :=
  decide (c = ' ' ∨ c = '\t' ∨ c = '\n' ∨ c = '\r' ∨ c = '\x0b' ∨ c = '\x0c')

/-- Python `s.strip()`: remove leading and trailing whitespace. -/
def pyStrip (s : String) : String :=
  ⟨((s.data.dropWhile pySpace).reverse.dropWhile pySpace).reverse⟩

/-- Python `s.lower()` (ASCII case fold, which is all the importer needs). -/
def pyLower (s : String) : String := ⟨s.data.map Char.toLower⟩

/-- Python slicing `s[:n]` / SQL `SUBSTR(s, 1, n)`. -/
def strTake (s : String) (n : Nat) : String := ⟨s.data.take n⟩

/-- Python slicing `s[n:]`. -/
def strDrop (s : String) (n : Nat) : String := ⟨s.data.drop n⟩

/-- Python `len(s)` (count of characters). -/
def strLength (s : String) : Nat := s.data.length

/-- Lexicographic comparison of character lists (SQLite text ordering on the
ASCII date strings the importer stores). -/
def charsLe : List Char → List Char → Bool
  | [], _ => true
  | _ :: _, [] => false
  | a :: as, b :: bs => if a = b then charsLe as bs else decide (a < b)

/-- SQLite `ORDER BY` comparison for `TEXT` values. -/
def strLeB (a b : String) : Bool := charsLe a.data b.data

/-- Value of a nonempty run of decimal digits; `none` on any non-digit or on
the empty list. -/
def digitsToNat : List Char → Option Nat
  | [] => none
  | l => go l 0
where
  go : List Char → Nat → Option Nat
    | [], acc => some acc
    | c :: cs, acc => if c.isDigit then go cs (acc * 10 + (c.toNat - '0'.toNat)) else none

/-- Split a character list at every `.` (Python `s.split(".")`). -/
def splitOnDot : List Char → List (List Char)
  | [] => [[]]
  | c :: cs =>
    if c = '.' then [] :: splitOnDot cs
    else match splitOnDot cs with
      | [] => [[c]]
      | p :: ps => (c :: p) :: ps

/-- Python `float(s)` restricted to plain decimal literals
(`"4"`, `"4.5"`, `"4."`, `".5"`, optional sign), which is the shape of the
Letterboxd rating column; exotic float syntax (exponents, `inf`, `nan`) is
outside the model and counts as a parse failure, i.e. a skipped row. -/
def parseRatCore (l : List Char) : Option Rat :=
  match splitOnDot l with
  | [a] => (digitsToNat a).map (fun n => (n : Rat))
  | [a, b] =>
    match a, b with
    | [], [] => none
    | [], _ => (digitsToNat b).map (fun f => (f : Rat) / (10 : Rat) ^ b.length)
    | _, [] => (digitsToNat a).map (fun n => (n : Rat))
    | _, _ =>
      match digitsToNat a, digitsToNat b with
      | some n, some f => some ((n : Rat) + (f : Rat) / (10 : Rat) ^ b.length)
      | _, _ => none
  | _ => none

/-- Python `float(s)` on an already-stripped string (see `parseRatCore`). -/
def parseRating (s : String) : Option Rat :=
  match s.data with
  | '-' :: rest => (parseRatCore rest).map Neg.neg
  | '+' :: rest => parseRatCore rest
  | l => parseRatCore l

/-- Python `int(s)` on an already-stripped string: optional sign followed by
digits. -/
def parseInt (s : String) : Option Int :=
  match s.data with
  | '-' :: rest => (digitsToNat rest).map (fun n => -(n : Int))
  | '+' :: rest => (digitsToNat rest).map (fun n => (n : Int))
  | l => (digitsToNat l).map (fun n => (n : Int))

/-- Ordered insert for `insSort` (the model of SQLite `ORDER BY`). -/
def insertOrd (le : α → α → Bool) (a : α) : List α → List α
  | [] => [a]
  | b :: l => if le a b then a :: b :: l else b :: insertOrd le a l

/-- Stable insertion sort by a boolean comparison (the model of SQLite
`ORDER BY`). -/
def insSort (le : α → α → Bool) : List α → List α
  | [] => []
  | a :: l => insertOrd le a (insSort le l)

/-! ## The relational store (schema of `create_tables`) -/

/-- A row of the `movie` table. -/
structure MovieRow where
  id : Nat
  tmdb_id : Nat
  title : String
  director : Option String
  year : Option Int
  length_min : Option Int
  rating : Option Rat
  deriving DecidableEq

/-- A row of the `person` table. -/
structure PersonRow where
  id : Nat
  name : String
  deriving DecidableEq

/-- A row of the `movie_cast` table; composite primary key
`(movie_id, person_id)`. -/
structure CastRow where
  movie_id : Nat
  person_id : Nat
  billing_order : Nat
  deriving DecidableEq

/-- A row of the `diary` table (a watch event). -/
structure DiaryRow where
  id : Nat
  movie_id : Nat
  watched_date : String
  rewatch : Bool
  deriving DecidableEq

/-- The whole store: the four tables plus the `INTEGER PRIMARY KEY`
autoincrement counters. -/
structure DB where
  movie : List MovieRow
  person : List PersonRow
  movie_cast : List CastRow
  diary : List DiaryRow
  next_movie_id : Nat
  next_person_id : Nat
  next_diary_id : Nat
  deriving DecidableEq

/-- The store right after `create_tables` on a fresh database file. -/
def emptyDB : DB :=
  { movie := [], person := [], movie_cast := [], diary := []
  , next_movie_id := 1, next_person_id := 1, next_diary_id := 1 }

/-- The five non-key columns written by the movie upsert. -/
structure MovieVals where
  title : String
  director : Option String
  year : Option Int
  length_min : Option Int
  rating : Option Rat
  deriving DecidableEq

/-- Overwrite the five upserted columns of a movie row (the
`ON CONFLICT ... DO UPDATE SET` clause of `insert_or_update_movie`). -/
def overwriteVals (m : MovieRow) (v : MovieVals) : MovieRow :=
  { m with title := v.title, director := v.director, year := v.year
         , length_min := v.length_min, rating := v.rating }

/-- The five upserted columns of a movie row. -/
def valsOf (m : MovieRow) : MovieVals :=
  ⟨m.title, m.director, m.year, m.length_min, m.rating⟩

/-! ## DB insert helpers (src/build_database.py) -/

/-- `get_or_create_person`: look the name up in `person`; if absent, insert it
with the next fresh id.  Returns the person id and the updated store. -/
def get_or_create_person (db : DB) (name : String) : Nat × DB :=
  match db.person.find? (fun p => decide (p.name = name)) with
  | some p => (p.id, db)
  | none =>
    (db.next_person_id,
     { db with person := db.person ++ [⟨db.next_person_id, name⟩]
             , next_person_id := db.next_person_id + 1 })

/-- `insert_or_update_movie`: upsert keyed by `tmdb_id`
(`INSERT ... ON CONFLICT(tmdb_id) DO UPDATE SET` all five non-key columns),
then return the internal movie id found by `SELECT id FROM movie WHERE
tmdb_id = ?`. -/
def insert_or_update_movie (db : DB) (tmdb_id : Nat) (title : String)
    (director : Option String) (year : Option Int) (length_min : Option Int)
    (rating : Option Rat) : Nat × DB :=
  match db.movie.find? (fun m => decide (m.tmdb_id = tmdb_id)) with
  | some m =>
    (m.id,
     { db with movie := db.movie.map (fun m2 =>
         if m2.tmdb_id = tmdb_id then
           overwriteVals m2 ⟨title, director, year, length_min, rating⟩
         else m2) })
  | none =>
    (db.next_movie_id,
     { db with movie := db.movie ++
         [⟨db.next_movie_id, tmdb_id, title, director, year, length_min, rating⟩]
             , next_movie_id := db.next_movie_id + 1 })

/-- The insertion loop of `replace_movie_cast`
(`for order, name in enumerate(cast_names_in_order[:10], start=1)`).
Inserting a row whose `(movie_id, person_id)` pair already exists violates the
composite primary key: SQLite raises `IntegrityError`, modelled as
`Except.error`. -/
def insertCastLoop (movie_id : Nat) : DB → List String → Nat → Except Unit DB
  | db, [], _ => .ok db
  | db, name :: rest, order =>
    let pr := get_or_create_person db name
    if (pr.2.movie_cast.any fun c =>
        decide (c.movie_id = movie_id) && decide (c.person_id = pr.1)) then
      .error ()
    else
      insertCastLoop movie_id
        { pr.2 with movie_cast := pr.2.movie_cast ++ [⟨movie_id, pr.1, order⟩] }
        rest (order + 1)

/-- `replace_movie_cast`: delete every `movie_cast` row of this movie, then
insert up to the first 10 names with billing order 1, 2, …. -/
def replace_movie_cast (db : DB) (movie_id : Nat)
    (cast_names_in_order : List String) : Except Unit DB :=
  insertCastLoop movie_id
    { db with movie_cast :=
        db.movie_cast.filter (fun c => !decide (c.movie_id = movie_id)) }
    (cast_names_in_order.take 10) 1

/-! ## TMDB interface (tmdb_search_movie / tmdb_get_movie_details_and_credits) -/

/-- A crew entry of the credits payload (`{job, name}`). -/
structure CrewMember where
  job : Option String
  name : Option String
  deriving DecidableEq

/-- A cast entry of the credits payload (`{name}`). -/
structure CastMember where
  name : Option String
  deriving DecidableEq

/-- The `credits` object appended to the details response. -/
structure Credits where
  crew : List CrewMember
  cast : List CastMember
  deriving DecidableEq

/-- The details+credits response body.  `title` is the service's own title; the
importer never reads it (it keeps the CSV title), which is why it sits unused
in the model. -/
structure Details where
  title : Option String
  release_date : Option String
  runtime : Option Int
  credits : Option Credits
  deriving DecidableEq

/-- The top search result (`results[0]`), reduced to the only field the
importer reads: the TMDB id. -/
structure SearchResult where
  id : Nat
  deriving DecidableEq

/-- Outcome of one HTTP call: a payload, or a raised transport /
`raise_for_status` error. -/
inductive ApiResp (α : Type) where
  | ok (val : α)
  | err
  deriving DecidableEq

/-- The external service: responses keyed by request.  `search t = .ok none`
is the empty result list.  Running the importer twice against the same `Api`
is running it against the same external responses. -/
structure Api where
  search : String → ApiResp (Option SearchResult)
  details : Nat → ApiResp Details

/-! ## Per-row import logic (process_csv) -/

/-- First crew member whose `job` equals `"Director"`, if any; its (possibly
missing) name becomes the movie's director. -/
def firstDirector (crew : List CrewMember) : Option String :=
  (crew.find? (fun c => decide (c.job = some "Director"))).bind (fun c => c.name)

/-- `[c.get("name") for c in cast_list if c.get("name")]`: all cast names that
are present and nonempty, in service order. -/
def castNamesOf (cast : List CastMember) : List String :=
  cast.filterMap (fun c => c.name.bind (fun n => if n = "" then none else some n))

/-- Year derivation: first 4 characters of the release date parsed as an
integer; `none` if the date is shorter than 4 characters or does not parse. -/
def yearOf (release_date : String) : Option Int :=
  if 4 ≤ strLength release_date then parseInt (strTake release_date 4) else none

/-- Everything `process_csv` resolves for one surviving CSV row before
touching the store. -/
structure ResolvedRow where
  tmdb_id : Nat
  title : String
  director : Option String
  year : Option Int
  length_min : Option Int
  rating : Rat
  cast_names : List String
  deriving DecidableEq

/-- `row[1].strip()`: the CSV title column. -/
def csvTitle (row : List String) : String := pyStrip ((row.get? 1).getD "")

/-- `row[4].strip()`: the CSV rating column. -/
def csvRatingStr (row : List String) : String := pyStrip ((row.get? 4).getD "")

/-- The row-level front half of the `process_csv` loop body: sanity checks,
rating parse, TMDB search, TMDB details.  `none` means the row is skipped
(too few fields, empty title, unparsable rating, search error, empty search
result, or details error); `some` carries the values the store writes will
use.  The stored title is the CSV title (`tmdb_title = title`), not
`details.title`. -/
def resolveRow (api : Api) (row : List String) : Option ResolvedRow :=
  if row.length < 5 then none
  else if csvTitle row = "" then none
  else
    match parseRating (csvRatingStr row) with
    | none => none
    | some rating =>
      match api.search (csvTitle row) with
      | .err => none
      | .ok none => none
      | .ok (some sr) =>
        match api.details sr.id with
        | .err => none
        | .ok details =>
          some { tmdb_id := sr.id
               , title := csvTitle row
               , director := firstDirector (details.credits.getD ⟨[], []⟩).crew
               , year := yearOf (details.release_date.getD "")
               , length_min := details.runtime
               , rating := rating
               , cast_names := castNamesOf (details.credits.getD ⟨[], []⟩).cast }

/-- One iteration of the `process_csv` loop: resolve the row; on a skip the
store is untouched; otherwise upsert the movie and replace its cast.  Only the
cast insert can raise (primary-key violation), and a raise propagates out of
the loop. -/
def processRow (api : Api) (db : DB) (row : List String) : Except Unit DB :=
  match resolveRow api row with
  | none => .ok db
  | some r =>
    let p := insert_or_update_movie db r.tmdb_id r.title r.director r.year
      r.length_min (some r.rating)
    replace_movie_cast p.2 p.1 r.cast_names

/-- `process_csv` over the data rows (the header row is already consumed by
`next(reader, None)`). -/
def process_csv (api : Api) (db : DB) : List (List String) → Except Unit DB
  | [] => .ok db
  | row :: rest =>
    match processRow api db row with
    | .ok db1 => process_csv api db1 rest
    | .error e => .error e

/-- Whether `process_csv` skips this row (row-level skip: malformed row or
external-lookup failure). -/
def rowSkipped (api : Api) (row : List String) : Bool :=
  (resolveRow api row).isNone

/-! ## The two batch operations (build / diary) and the database files -/

/-- The persisted state: database files keyed by the path string they were
opened or removed with (`os.path.exists` / `os.remove` /
`sqlite3.connect` all take path strings; `build` and `DB_PATH` use
*different* strings). -/
def FS : Type := List (String × DB)

/-- The database file at a path, if present. -/
def fsLookup (fs : FS) (p : String) : Option DB :=
  (List.find? (fun e => decide (e.1 = p)) fs).map (fun e => e.2)

/-- `os.remove(p)` (no-op when absent, which is what the
`if os.path.exists(path): os.remove(path)` guard amounts to). -/
def fsRemove (fs : FS) (p : String) : FS :=
  List.filter (fun e => !decide (e.1 = p)) fs

/-- Persist a database file at a path. -/
def fsWrite (fs : FS) (p : String) (d : DB) : FS :=
  (p, d) :: fsRemove fs p

/-- `DB_PATH = Path("data/movies.db")`: the path every `sqlite3.connect` in
the repository opens. -/
def dbPath : String := "data/movies.db"

/-- The paths `build()` removes: `f"movies.db{ext}"` for
`ext in ("", "-wal", "-shm")` — relative to the working directory, *not*
`DB_PATH`. -/
def buildRemovePaths : List String := ["movies.db", "movies.db-wal", "movies.db-shm"]

/-- The filesystem after `build()`'s removal loop. -/
def buildRemoveStep (fs : FS) : FS := buildRemovePaths.foldl fsRemove fs

/-- The store `build()`'s transaction starts from: `sqlite3.connect(DB_PATH)`
opens (creating if absent) the file at `dbPath` after the removal loop, and
`create_tables` uses `CREATE TABLE IF NOT EXISTS`, so existing rows survive
it. -/
def buildStartStore (fs : FS) : DB :=
  (fsLookup (buildRemoveStep fs) dbPath).getD emptyDB

/-- `build()`: removal loop, connect + `create_tables`, then `process_csv`
inside one transaction — commit on success, rollback (and re-raise) on any
write error. -/
def build (api : Api) (rows : List (List String)) (fs : FS) :
    Except Unit Unit × FS :=
  let fs1 := buildRemoveStep fs
  let db0 := (fsLookup fs1 dbPath).getD emptyDB
  match process_csv api db0 rows with
  | .ok db1 => (.ok (), fsWrite fs1 dbPath db1)
  | .error e => (.error e, fsWrite fs1 dbPath db0)

/-- `row[1].strip()`: the diary title column. -/
def diaryTitle (row : List String) : String := pyStrip ((row.get? 1).getD "")

/-- `row[7].strip()`: the diary watched-date column. -/
def diaryDate (row : List String) : String := pyStrip ((row.get? 7).getD "")

/-- `row[5].strip().lower()` tested against the recognised truthy tokens
(`"yes"/"true"/"1"/"y"`); everything else is 0. -/
def diaryRewatch (row : List String) : Bool :=
  decide (pyLower (pyStrip ((row.get? 5).getD "")) = "yes"
    ∨ pyLower (pyStrip ((row.get? 5).getD "")) = "true"
    ∨ pyLower (pyStrip ((row.get? 5).getD "")) = "1"
    ∨ pyLower (pyStrip ((row.get? 5).getD "")) = "y")

/-- One iteration of the `diary()` loop: sanity checks, rewatch-token
normalisation, movie lookup by exact title, and the `INSERT INTO diary`.  A
row that fails a check or matches no movie is skipped. -/
def diaryStep (db : DB) (row : List String) : DB :=
  if row.length < 8 then db
  else if diaryTitle row = "" ∨ diaryDate row = "" then db
  else
    match db.movie.find? (fun m => decide (m.title = diaryTitle row)) with
    | none => db
    | some m =>
      { db with diary := db.diary ++
          [⟨db.next_diary_id, m.id, diaryDate row, diaryRewatch row⟩]
              , next_diary_id := db.next_diary_id + 1 }

/-- `diary()` over the data rows of diary.csv. -/
def diaryMerge (db : DB) (rows : List (List String)) : DB :=
  rows.foldl diaryStep db

/-- The diary-merge operation as the program exposes it (option 2 of
`__main__`): `diary()` runs only behind the `Path("data/movies.db").exists()`
precondition; with no prior persisted state it fails with the precondition
error and touches nothing. -/
def mainDiaryOption (fs : FS) (rows : List (List String)) :
    Except Unit Unit × FS :=
  match fsLookup fs dbPath with
  | some db0 => (.ok (), fsWrite fs dbPath (diaryMerge db0 rows))
  | none => (.error (), fs)

/-! ## Analytics joins (general_analysis.py / top5_analysis.py) -/

/-- `FROM diary d JOIN movie m ON m.id = d.movie_id`. -/
def diaryJoin (db : DB) : List (DiaryRow × MovieRow) :=
  db.diary.flatMap (fun d =>
    (db.movie.filter (fun m => decide (m.id = d.movie_id))).map (fun m => (d, m)))

/-- SQL `AVG` over the non-null values of a column: `none` when there are no
values (and SQL `AVG` itself already ignores `NULL`s, so callers pass the
non-null list). -/
def ratAvg (l : List Rat) : Option Rat :=
  if l.isEmpty then none else some (l.sum / (l.length : Rat))

/-- SQL `AVG` specialised to nonempty groups (every `GROUP BY` group has at
least one row). -/
def ratAvg0 (l : List Rat) : Rat := l.sum / (l.length : Rat)

/-- `ORDER BY` comparison for `REAL` ascending. -/
def ratLeB (a b : Rat) : Bool := decide (a ≤ b)

/-- `get_diary_ratings`: count of diary events grouped by the joined movie's
rating, restricted to `m.rating IS NOT NULL`, ordered ascending by rating;
returned as the `{rating: count}` mapping the Python builds. -/
def get_diary_ratings (db : DB) : List (Rat × Nat) :=
  let ratings := (diaryJoin db).filterMap (fun dm => dm.2.rating)
  (insSort ratLeB ratings.dedup).map (fun r => (r, ratings.count r))

/-- The per-month record `get_monthly_stats` builds for one SQL group row. -/
structure MonthStats where
  watches : Nat
  rewatches : Nat
  minutes : Int
  hours : Rat
  avg_rating : Option Rat
  deriving DecidableEq

/-- `datetime.strptime(month_str, "%Y-%m").strftime("%b")`: the month-name
abbreviation of a `"YYYY-MM"` string — the year is discarded.  `strptime`
raises on anything but a valid month number, so only `"01"`–`"12"` are
modelled (the spec leaves non-conforming dates undefined). -/
def monthAbbrev (month_str : String) : String :=
  let mm := strDrop month_str 5
  if mm = "01" then "Jan" else if mm = "02" then "Feb"
  else if mm = "03" then "Mar" else if mm = "04" then "Apr"
  else if mm = "05" then "May" else if mm = "06" then "Jun"
  else if mm = "07" then "Jul" else if mm = "08" then "Aug"
  else if mm = "09" then "Sep" else if mm = "10" then "Oct"
  else if mm = "11" then "Nov" else if mm = "12" then "Dec" else ""

/-- Python `stats[key] = value` on the dict modelled as an association list:
overwrite in place if the key exists, else append. -/
def dictInsert (d : List (String × MonthStats)) (k : String) (v : MonthStats) :
    List (String × MonthStats) :=
  if d.any (fun e => decide (e.1 = k)) then
    d.map (fun e => if e.1 = k then (k, v) else e)
  else d ++ [(k, v)]

/-- `get_monthly_stats`: the SQL groups watch events by
`SUBSTR(d.watched_date, 1, 7)` (ordered by that key), then the Python re-keys
each group row by `strftime("%b")` into a dict. -/
def get_monthly_stats (db : DB) : List (String × MonthStats) :=
  let rows := diaryJoin db
  let keys := insSort strLeB ((rows.map (fun dm => strTake dm.1.watched_date 7)).dedup)
  let sqlRows := keys.map (fun k =>
    let grp := rows.filter (fun dm => decide (strTake dm.1.watched_date 7 = k))
    (k, ({ watches := grp.length
         , rewatches := (grp.filter (fun dm => dm.1.rewatch)).length
         , minutes := (grp.filterMap (fun dm => dm.2.length_min)).sum
         , hours := (((grp.filterMap (fun dm => dm.2.length_min)).sum : Int) : Rat) / 60
         , avg_rating := ratAvg (grp.filterMap (fun dm => dm.2.rating)) } : MonthStats)))
  sqlRows.foldl (fun acc kv => dictInsert acc (monthAbbrev kv.1) kv.2) []

/-! ## Top-K rankings (top5_analysis.py) -/

/-- One output row of the highest-rated director/actor queries. -/
structure RankRow where
  name : String
  movie_count : Nat
  watch_count : Nat
  avg_rating : Rat
  deriving DecidableEq

/-- `ORDER BY avg_rating DESC`. -/
def avgDescB (a b : RankRow) : Bool := decide (b.avg_rating ≤ a.avg_rating)

/-- The joined rows surviving `WHERE m.director IS NOT NULL AND m.rating IS
NOT NULL` of `get_top_directors_highest_rated`. -/
def dirRows (db : DB) : List (DiaryRow × MovieRow) :=
  (diaryJoin db).filter (fun dm => dm.2.director.isSome && dm.2.rating.isSome)

/-- One `GROUP BY m.director` group of `get_top_directors_highest_rated`. -/
def dirGroup (db : DB) (name : String) : List (DiaryRow × MovieRow) :=
  (dirRows db).filter (fun dm => decide (dm.2.director = some name))

/-- The `SELECT` row built for one director group: distinct-movie count,
watch count and `AVG(m.rating)` over that group. -/
def dirRankRow (db : DB) (nm : String) : RankRow :=
  { name := nm
  , movie_count := ((dirGroup db nm).map (fun dm => dm.1.movie_id)).dedup.length
  , watch_count := (dirGroup db nm).length
  , avg_rating := ratAvg0 ((dirGroup db nm).filterMap (fun dm => dm.2.rating)) }

/-- `get_top_directors_highest_rated`: group the null-filtered join by
director, `HAVING COUNT(DISTINCT d.movie_id) > 1`, order by average rating
descending, `LIMIT ?`. -/
def get_top_directors_highest_rated (db : DB) (limit : Nat) : List RankRow :=
  let keys := ((dirRows db).filterMap (fun dm => dm.2.director)).dedup
  let kept := (keys.map (dirRankRow db)).filter (fun g => decide (1 < g.movie_count))
  (insSort avgDescB kept).take limit

/-- One row of the four-way join
`diary ⋈ movie ⋈ movie_cast ⋈ person` used by the actor queries. -/
structure AJRow where
  d : DiaryRow
  m : MovieRow
  mc : CastRow
  p : PersonRow
  deriving DecidableEq

/-- `FROM diary d JOIN movie m JOIN movie_cast mc ON mc.movie_id = m.id
JOIN person p ON p.id = mc.person_id`. -/
def actorJoin (db : DB) : List AJRow :=
  (diaryJoin db).flatMap (fun dm =>
    (db.movie_cast.filter (fun mc => decide (mc.movie_id = dm.2.id))).flatMap (fun mc =>
      (db.person.filter (fun p => decide (p.id = mc.person_id))).map
        (fun p => ⟨dm.1, dm.2, mc, p⟩)))

/-- The joined rows surviving `WHERE m.rating IS NOT NULL` of
`get_top_actors_highest_rated`. -/
def actRows (db : DB) : List AJRow :=
  (actorJoin db).filter (fun r => r.m.rating.isSome)

/-- One `GROUP BY p.id` group of `get_top_actors_highest_rated`. -/
def actGroup (db : DB) (pid : Nat) : List AJRow :=
  (actRows db).filter (fun r => decide (r.p.id = pid))

/-- The `SELECT` row built for one `p.id` group: the displayed `p.name`,
distinct-movie count, watch count and `AVG(m.rating)` over that group. -/
def actorRankRow (db : DB) (pid : Nat) : RankRow :=
  { name := match actGroup db pid with | [] => "" | r :: _ => r.p.name
  , movie_count := ((actGroup db pid).map (fun r => r.d.movie_id)).dedup.length
  , watch_count := (actGroup db pid).length
  , avg_rating := ratAvg0 ((actGroup db pid).filterMap (fun r => r.m.rating)) }

/-- `get_top_actors_highest_rated`: group the null-filtered four-way join by
person id, `HAVING COUNT(DISTINCT d.movie_id) > 1`, order by average rating
descending, `LIMIT ?`. -/
def get_top_actors_highest_rated (db : DB) (limit : Nat) : List RankRow :=
  let keys := ((actRows db).map (fun r => r.p.id)).dedup
  let kept := (keys.map (actorRankRow db)).filter (fun g => decide (1 < g.movie_count))
  (insSort avgDescB kept).take limit

/-! ## Spec-side readouts and invariants used by the theorems -/

/-- The cast link rows of one movie. -/
def castFor (db : DB) (movie_id : Nat) : List CastRow :=
  db.movie_cast.filter (fun c => decide (c.movie_id = movie_id))

/-- The display name stored for a person id. -/
def personName (db : DB) (pid : Nat) : Option String :=
  (db.person.find? (fun p => decide (p.id = pid))).map (fun p => p.name)

/-- Well-formedness of the `person` table, exactly what SQLite's
`name UNIQUE` plus `id INTEGER PRIMARY KEY` maintain: unique names, unique
ids, ids below the autoincrement counter. -/
def PW (db : DB) : Prop :=
  (db.person.map (fun p => p.name)).Nodup ∧
  (db.person.map (fun p => p.id)).Nodup ∧
  ∀ p ∈ db.person, p.id < db.next_person_id

instance (db : DB) : Decidable (PW db) := by
  unfold PW; exact inferInstance

/-- The external catalog ids of a movie table. -/
def tmdbs (M : List MovieRow) : List Nat := M.map (fun m => m.tmdb_id)

/-- The action of `insert_or_update_movie` on the `movie` table and its
autoincrement counter alone. -/
def mUpsert (s : List MovieRow × Nat) (u : Nat × MovieVals) : List MovieRow × Nat :=
  match s.1.find? (fun m => decide (m.tmdb_id = u.1)) with
  | some _ => (s.1.map (fun m => if m.tmdb_id = u.1 then overwriteVals m u.2 else m), s.2)
  | none =>
    (s.1 ++ [⟨s.2, u.1, u.2.title, u.2.director, u.2.year, u.2.length_min, u.2.rating⟩],
     s.2 + 1)

/-- The upserted columns a resolved row writes. -/
def rvals (r : ResolvedRow) : MovieVals :=
  ⟨r.title, r.director, r.year, r.length_min, some r.rating⟩

/-- The sequence of movie upserts a `process_csv` run performs: one per
surviving row, keyed by the resolved external id. -/
def upsertsOf (api : Api) (rows : List (List String)) : List (Nat × MovieVals) :=
  rows.filterMap (fun row => (resolveRow api row).map (fun r => (r.tmdb_id, rvals r)))

/-- The value written last for an external id by a sequence of upserts. -/
def lastVal : List (Nat × MovieVals) → Nat → Option MovieVals
  | [], _ => none
  | u :: us, t =>
    match lastVal us t with
    | some v => some v
    | none => if u.1 = t then some u.2 else none

/-- The upserted columns currently stored for an external id. -/
def valAt (M : List MovieRow) (t : Nat) : Option MovieVals :=
  (M.find? (fun m => decide (m.tmdb_id = t))).map valsOf

/-- Distinct watched movies credited to a director, over *all* diary events
(no rating filter). -/
def watchedDirMovies (db : DB) (nm : String) : Nat :=
  (((diaryJoin db).filter (fun dm => decide (dm.2.director = some nm))).map
    (fun dm => dm.1.movie_id)).dedup.length

/-- Distinct watched movies featuring a person, over *all* diary events
(no rating filter). -/
def watchedActMovies (db : DB) (pid : Nat) : Nat :=
  (((actorJoin db).filter (fun r => decide (r.p.id = pid))).map
    (fun r => r.d.movie_id)).dedup.length

/-- The non-null ratings of all of a director's diary events. -/
def dirRatingsAll (db : DB) (nm : String) : List Rat :=
  ((diaryJoin db).filter (fun dm => decide (dm.2.director = some nm))).filterMap
    (fun dm => dm.2.rating)

/-- The non-null ratings of all of a person's diary events. -/
def actRatingsAll (db : DB) (pid : Nat) : List Rat :=
  ((actorJoin db).filter (fun r => decide (r.p.id = pid))).filterMap
    (fun r => r.m.rating)

/-- Diary events whose joined movie has a non-null rating. -/
def ratedEvents (db : DB) : List (DiaryRow × MovieRow) :=
  (diaryJoin db).filter (fun dm => dm.2.rating.isSome)

/-- Diary events whose joined movie has exactly rating `r`. -/
def eventsRated (db : DB) (r : Rat) : List (DiaryRow × MovieRow) :=
  (diaryJoin db).filter (fun dm => decide (dm.2.rating = some r))

/-- The id stored for a display name, if the person exists
(the lookup half of `get_or_create_person`). -/
def personId (db : DB) (name : String) : Option Nat :=
  (db.person.find? (fun p => decide (p.name = name))).map (fun p => p.id)

/-! ## Concrete fixtures used by counterexamples and witnesses -/

/-- A store left behind by an earlier successful run: one row in each of the
four tables. -/
def dbPrior : DB :=
  { movie := [⟨1, 603, "The Matrix", some "Lana", some 1999, some 136, some 4⟩]
  , person := [⟨1, "Keanu Reeves"⟩]
  , movie_cast := [⟨1, 1, 1⟩]
  , diary := [⟨1, 1, "2024-01-05", false⟩]
  , next_movie_id := 2, next_person_id := 2, next_diary_id := 2 }

/-- A filesystem holding the prior store at `DB_PATH`. -/
def fsPrior : FS := [(dbPath, dbPrior)]

/-- A service that always finds tmdb id 5 with two distinct cast members. -/
def apiOne : Api :=
  { search := fun _ => .ok (some ⟨5⟩)
  , details := fun _ => .ok
      { title := some "Service Title"
      , release_date := some "1999-03-31"
      , runtime := some 136
      , credits := some ⟨[⟨some "Director", some "Lana"⟩],
          [⟨some "Keanu"⟩, ⟨some "Carrie"⟩]⟩ } }

/-- One well-formed ratings row (title in column 2, rating in column 5). -/
def rowOne : List String := ["2024-01-01", "The Matrix", "x", "y", "4"]

/-- A one-row ratings source. -/
def rowsOne : List (List String) := [rowOne]

/-- The resolution of `rowOne` against `apiOne`. -/
def rOneW : ResolvedRow :=
  (resolveRow apiOne rowOne).getD ⟨0, "", none, none, none, 0, []⟩

/-- The filesystem after a first `build` over `apiOne`/`rowsOne` from an empty
environment. -/
def fsRun1 : FS := (build apiOne rowsOne []).2

/-- The store persisted by that first build. -/
def dbRun1 : DB := (fsLookup fsRun1 dbPath).getD emptyDB

/-- A service whose details list the same cast name twice — the shape that
makes `replace_movie_cast` insert a duplicate `(movie_id, person_id)` pair. -/
def apiDup : Api :=
  { search := fun _ => .ok (some ⟨7⟩)
  , details := fun _ => .ok
      { title := some "Service Title"
      , release_date := some "1999-10-01"
      , runtime := some 100
      , credits := some ⟨[⟨some "Director", some "Dir"⟩],
          [⟨some "Alice"⟩, ⟨some "Alice"⟩]⟩ } }

/-- One ratings row fed to `apiDup`. -/
def rowsDup : List (List String) := [["2024-01-01", "Primer", "x", "y", "4"]]

/-- The store `replace_movie_cast emptyDB 1 ["Alice", "Bob"]` produces. -/
def dbCastW : DB :=
  { movie := [], person := [⟨1, "Alice"⟩, ⟨2, "Bob"⟩]
  , movie_cast := [⟨1, 1, 1⟩, ⟨1, 2, 2⟩], diary := []
  , next_movie_id := 1, next_person_id := 3, next_diary_id := 1 }

/-- A store with one movie watched in January of two different years. -/
def dbMonths : DB :=
  { movie := [⟨1, 603, "The Matrix", none, none, some 100, some 4⟩]
  , person := [], movie_cast := []
  , diary := [⟨1, 1, "2023-01-05", false⟩, ⟨2, 1, "2024-01-05", false⟩]
  , next_movie_id := 2, next_person_id := 1, next_diary_id := 3 }

/-- A store where director `"Solo"` and the single cast person (id 1) each
have exactly one distinct watched movie — with the dataset-maximum rating. -/
def dbRank : DB :=
  { movie := [⟨1, 10, "A", some "Solo", none, none, some 5⟩]
  , person := [⟨1, "Ann"⟩]
  , movie_cast := [⟨1, 1, 1⟩]
  , diary := [⟨1, 1, "2024-01-05", false⟩, ⟨2, 1, "2024-02-05", true⟩]
  , next_movie_id := 2, next_person_id := 2, next_diary_id := 3 }

/-- A store with two rated diary events on one movie and one event on an
unrated movie. -/
def dbRated : DB :=
  { movie := [⟨1, 10, "A", none, none, none, some 4⟩, ⟨2, 11, "B", none, none, none, none⟩]
  , person := [], movie_cast := []
  , diary := [⟨1, 1, "2024-01-05", false⟩, ⟨2, 1, "2024-02-05", true⟩, ⟨3, 2, "2024-03-05", false⟩]
  , next_movie_id := 3, next_person_id := 1, next_diary_id := 4 }

/-! ## General list lemmas -/

theorem perm_insertOrd (le : α → α → Bool) (a : α) :
    ∀ l : List α, List.Perm (insertOrd le a l) (a :: l)
  | [] => List.Perm.refl _
  | b :: t => by
    unfold insertOrd
    by_cases h : le a b = true
    · simp [h]
    · simp only [h, ite_false, Bool.false_eq_true, if_false]
      exact (List.Perm.cons b (perm_insertOrd le a t)).trans (List.Perm.swap a b t)

theorem perm_insSort (le : α → α → Bool) : ∀ l : List α, List.Perm (insSort le l) l
  | [] => List.Perm.refl _
  | a :: t => (perm_insertOrd le a (insSort le t)).trans (List.Perm.cons a (perm_insSort le t))

theorem pairwise_insertOrd (le : α → α → Bool)
    (hto : ∀ x y, le x y = true ∨ le y x = true)
    (htr : ∀ x y z, le x y = true → le y z = true → le x z = true) (a : α) :
    ∀ l : List α, l.Pairwise (fun x y => le x y = true) →
      (insertOrd le a l).Pairwise (fun x y => le x y = true)
  | [], _ => by simp [insertOrd]
  | b :: t, hl => by
    rcases List.pairwise_cons.mp hl with ⟨hb, ht⟩
    unfold insertOrd
    by_cases h : le a b = true
    · simp only [h, if_true]
      refine List.Pairwise.cons ?_ hl
      intro y hy
      rcases List.mem_cons.mp hy with rfl | hy
      · exact h
      · exact htr a b y h (hb y hy)
    · simp only [h, ite_false, Bool.false_eq_true, if_false]
      refine List.Pairwise.cons ?_ (pairwise_insertOrd le hto htr a t ht)
      intro y hy
      have hy2 : y ∈ a :: t := (perm_insertOrd le a t).mem_iff.mp hy
      rcases List.mem_cons.mp hy2 with heq | hy2
      · rw [heq]
        rcases hto a b with hh | hh
        · exact absurd hh h
        · exact hh
      · exact hb y hy2

theorem pairwise_insSort (le : α → α → Bool)
    (hto : ∀ x y, le x y = true ∨ le y x = true)
    (htr : ∀ x y z, le x y = true → le y z = true → le x z = true) :
    ∀ l : List α, (insSort le l).Pairwise (fun x y => le x y = true)
  | [] => List.Pairwise.nil
  | a :: t => pairwise_insertOrd le hto htr a _ (pairwise_insSort le hto htr t)

theorem find?_key_eq_self {β : Type} [DecidableEq β] (key : α → β) :
    ∀ {l : List α}, (l.map key).Nodup → ∀ {m : α}, m ∈ l →
      l.find? (fun x => decide (key x = key m)) = some m := by
  intro l
  induction l with
  | nil => intro _ m hm; cases hm
  | cons a t ih =>
    intro hnd m hm
    rw [List.map_cons, List.nodup_cons] at hnd
    rcases List.mem_cons.mp hm with rfl | hm
    · simp [List.find?]
    · have hne : ¬ (key a = key m) := fun he => hnd.1 (he ▸ List.mem_map_of_mem key hm)
      rw [List.find?_cons]
      simp only [hne, decide_eq_true_eq, if_false, decide_False]
      exact ih hnd.2 hm

theorem dedup_length_le_of_subset [DecidableEq α] {l1 l2 : List α} (h : l1 ⊆ l2) :
    l1.dedup.length ≤ l2.dedup.length := by
  rw [← List.card_toFinset, ← List.card_toFinset]
  exact Finset.card_le_card (fun x hx => List.mem_toFinset.mpr (h (List.mem_toFinset.mp hx)))

theorem count_filterMap_eq_countP {α β : Type} [DecidableEq β] (f : α → Option β) (b : β) :
    ∀ l : List α, (l.filterMap f).count b = l.countP (fun a => decide (f a = some b))
  | [] => rfl
  | a :: t => by
    rw [List.filterMap_cons, List.countP_cons]
    cases hfa : f a with
    | none => simp [hfa, count_filterMap_eq_countP f b t]
    | some c =>
      rw [List.count_cons, count_filterMap_eq_countP f b t]
      by_cases hcb : c = b
      · subst hcb; simp [hfa]
      · simp [hfa, hcb]

theorem length_filterMap_eq_length_filter {α β : Type} (f : α → Option β) :
    ∀ l : List α, (l.filterMap f).length = (l.filter (fun a => (f a).isSome)).length
  | [] => rfl
  | a :: t => by
    rw [List.filterMap_cons]
    cases hfa : f a with
    | none => simp [hfa, length_filterMap_eq_length_filter f t]
    | some c => simp [hfa, length_filterMap_eq_length_filter f t]

theorem filterMap_filter_isSome {α β : Type} (f : α → Option β) (q : α → Bool) :
    ∀ l : List α, (l.filter (fun a => q a && (f a).isSome)).filterMap f
      = (l.filter q).filterMap f
  | [] => rfl
  | a :: t => by
    by_cases hq : q a = true
    · cases hfa : f a with
      | none => simp [List.filter_cons, hq, hfa, List.filterMap_cons,
          filterMap_filter_isSome f q t]
      | some c => simp [List.filter_cons, hq, hfa, List.filterMap_cons,
          filterMap_filter_isSome f q t]
    · simp [List.filter_cons, hq, filterMap_filter_isSome f q t]

/-! ## Person-table lemmas -/

theorem findp_append_of_some {l : List α} {p : α → Bool} {a : α} (ex : List α)
    (h : l.find? p = some a) : (l ++ ex).find? p = some a := by
  rw [List.find?_append, h]; rfl

theorem gcp_frame (db : DB) (name : String) :
    (get_or_create_person db name).2.movie = db.movie ∧
    (get_or_create_person db name).2.movie_cast = db.movie_cast ∧
    (get_or_create_person db name).2.diary = db.diary ∧
    (get_or_create_person db name).2.next_movie_id = db.next_movie_id ∧
    (get_or_create_person db name).2.next_diary_id = db.next_diary_id := by
  unfold get_or_create_person
  cases db.person.find? (fun p => decide (p.name = name)) <;> simp

theorem gcp_person_mono (db : DB) (name : String) :
    ∃ ex, (get_or_create_person db name).2.person = db.person ++ ex := by
  unfold get_or_create_person
  cases db.person.find? (fun p => decide (p.name = name)) with
  | none => exact ⟨[⟨db.next_person_id, name⟩], rfl⟩
  | some p => exact ⟨[], by simp⟩

theorem gcp_next_le (db : DB) (name : String) :
    db.next_person_id ≤ (get_or_create_person db name).2.next_person_id := by
  unfold get_or_create_person
  cases db.person.find? (fun p => decide (p.name = name)) <;> simp

theorem gcp_PW (db : DB) (name : String) (hpw : PW db) :
    PW (get_or_create_person db name).2 := by
  obtain ⟨hn, hi, hb⟩ := hpw
  unfold get_or_create_person
  cases hf : db.person.find? (fun p => decide (p.name = name)) with
  | some p => exact ⟨hn, hi, hb⟩
  | none =>
    refine ⟨?_, ?_, ?_⟩
    · rw [List.map_append, List.map_singleton]
      rw [List.nodup_append]
      refine ⟨hn, List.nodup_singleton _, ?_⟩
      intro x hx hmem
      rcases List.mem_singleton.mp hmem with rfl
      rcases List.mem_map.mp hx with ⟨p, hp, hpn⟩
      have := List.find?_eq_none.mp hf p hp
      simp only [decide_eq_true_eq] at this
      exact this hpn
    · rw [List.map_append, List.map_singleton]
      rw [List.nodup_append]
      refine ⟨hi, List.nodup_singleton _, ?_⟩
      intro x hx hmem
      rcases List.mem_singleton.mp hmem with rfl
      rcases List.mem_map.mp hx with ⟨p, hp, hpn⟩
      exact absurd hpn (Nat.ne_of_lt (hb p hp))
    · intro p hp
      rcases List.mem_append.mp hp with hp | hp
      · exact Nat.lt_succ_of_lt (hb p hp)
      · rcases List.mem_singleton.mp hp with rfl
        exact Nat.lt_succ_self _

theorem gcp_id_lt (db : DB) (name : String) (hpw : PW db) :
    (get_or_create_person db name).1 < (get_or_create_person db name).2.next_person_id := by
  obtain ⟨hn, hi, hb⟩ := hpw
  unfold get_or_create_person
  cases hf : db.person.find? (fun p => decide (p.name = name)) with
  | some p => exact hb p (List.mem_of_find?_eq_some hf)
  | none => exact Nat.lt_succ_self _

theorem gcp_findById (db : DB) (name : String) (hpw : PW db) :
    (get_or_create_person db name).2.person.find?
        (fun p => decide (p.id = (get_or_create_person db name).1)) =
      some ⟨(get_or_create_person db name).1, name⟩ := by
  obtain ⟨hn, hi, hb⟩ := hpw
  unfold get_or_create_person
  cases hf : db.person.find? (fun p => decide (p.name = name)) with
  | some p =>
    have hp : p ∈ db.person := List.mem_of_find?_eq_some hf
    have hpn : p.name = name := by
      have := List.find?_some hf
      simpa using this
    have := find?_key_eq_self (fun q : PersonRow => q.id) hi hp
    simp only []
    rw [this]
    cases p
    simp only at hpn
    rw [hpn]
  | none =>
    simp only []
    rw [List.find?_append]
    have h1 : db.person.find? (fun p => decide (p.id = db.next_person_id)) = none := by
      rw [List.find?_eq_none]
      intro p hp
      simp only [decide_eq_true_eq]
      exact Nat.ne_of_lt (hb p hp)
    rw [h1]
    simp [List.find?]

theorem gcp_personId_after (db : DB) (name : String) :
    personId (get_or_create_person db name).2 name =
      some (get_or_create_person db name).1 := by
  unfold personId get_or_create_person
  cases hf : db.person.find? (fun p => decide (p.name = name)) with
  | some p => simp [hf]
  | none =>
    simp only []
    rw [List.find?_append, hf]
    simp [List.find?]

theorem gcp_of_personId_some (db : DB) (name : String) (pid : Nat)
    (h : personId db name = some pid) :
    (get_or_create_person db name).1 = pid ∧
    (get_or_create_person db name).2 = db := by
  unfold personId at h
  unfold get_or_create_person
  cases hf : db.person.find? (fun p => decide (p.name = name)) with
  | some p =>
    rw [hf] at h
    have hp : p.id = pid := by simpa using h
    simp [hp]
  | none => rw [hf] at h; cases h

theorem personId_stable {db db2 : DB} (name : String) {pid : Nat}
    (hex : ∃ ex, db2.person = db.person ++ ex)
    (h : personId db name = some pid) : personId db2 name = some pid := by
  obtain ⟨ex, hex⟩ := hex
  unfold personId at h ⊢
  rw [hex]
  cases hf : db.person.find? (fun p => decide (p.name = name)) with
  | none => rw [hf] at h; cases h
  | some p => rw [findp_append_of_some ex hf]; rw [hf] at h; exact h

theorem personName_stable {db db2 : DB} {pid : Nat} {nm : String}
    (hex : ∃ ex, db2.person = db.person ++ ex)
    (h : db.person.find? (fun p => decide (p.id = pid)) = some ⟨pid, nm⟩) :
    personName db2 pid = some nm := by
  obtain ⟨ex, hex⟩ := hex
  unfold personName
  rw [hex, findp_append_of_some ex h]
  rfl

/-! ## Cast-replacement lemmas -/

theorem insertCastLoop_cons (mid : Nat) (db : DB) (nm : String) (rest : List String)
    (k : Nat) :
    insertCastLoop mid db (nm :: rest) k =
      (if ((get_or_create_person db nm).2.movie_cast.any fun c =>
            decide (c.movie_id = mid) && decide (c.person_id = (get_or_create_person db nm).1))
       then .error ()
       else insertCastLoop mid
        { (get_or_create_person db nm).2 with movie_cast :=
            (get_or_create_person db nm).2.movie_cast ++
              [⟨mid, (get_or_create_person db nm).1, k⟩] }
        rest (k + 1)) := rfl

theorem castFor_push (db : DB) (base : DB) (mid pid k : Nat)
    (h : db.movie_cast = base.movie_cast ++ [⟨mid, pid, k⟩]) :
    castFor db mid = castFor base mid ++ [⟨mid, pid, k⟩] ∧
    ∀ m, m ≠ mid → castFor db m = castFor base m := by
  constructor
  · unfold castFor
    rw [h, List.filter_append]
    simp [List.filter]
  · intro m hm
    unfold castFor
    rw [h, List.filter_append]
    have : ¬ (mid = m) := fun he => hm he.symm
    simp [List.filter, this]

theorem insertCastLoop_ok (mid : Nat) :
    ∀ (names : List String) (db : DB) (k : Nat) (db' : DB),
      PW db →
      (∀ c ∈ castFor db mid, c.person_id < db.next_person_id) →
      insertCastLoop mid db names k = .ok db' →
      PW db' ∧
      db'.movie = db.movie ∧ db'.diary = db.diary ∧
      db'.next_movie_id = db.next_movie_id ∧
      db'.next_diary_id = db.next_diary_id ∧
      (∃ ex, db'.person = db.person ++ ex) ∧
      db.next_person_id ≤ db'.next_person_id ∧
      (∀ m, m ≠ mid → castFor db' m = castFor db m) ∧
      ∃ pids, pids.length = names.length ∧
        castFor db' mid = castFor db mid ++
          List.zipWith (fun pid o => CastRow.mk mid pid o) pids
            (List.range' k names.length) ∧
        pids.map (fun pid => personName db' pid) = names.map some := by
  intro names
  induction names with
  | nil =>
    intro db k db' hpw hinv hok
    unfold insertCastLoop at hok
    cases hok
    refine ⟨hpw, rfl, rfl, rfl, rfl, ⟨[], by simp⟩, le_refl _, fun m _ => rfl, [], ?_⟩
    simp
  | cons nm rest ih =>
    intro db k db' hpw hinv hok
    rw [insertCastLoop_cons] at hok
    by_cases hc : ((get_or_create_person db nm).2.movie_cast.any fun c =>
        decide (c.movie_id = mid) && decide (c.person_id = (get_or_create_person db nm).1)) = true
    · rw [if_pos hc] at hok; cases hok
    · rw [if_neg hc] at hok
      obtain ⟨hgm, hgc, hgd, hgnm, hgnd⟩ := gcp_frame db nm
      have hgpw := gcp_PW db nm hpw
      have hgnle := gcp_next_le db nm
      have hgidlt := gcp_id_lt db nm hpw
      have hgfind := gcp_findById db nm hpw
      obtain ⟨ex0, hex0⟩ := gcp_person_mono db nm
      obtain ⟨hcmid, hcoth⟩ := castFor_push
        { (get_or_create_person db nm).2 with movie_cast :=
            (get_or_create_person db nm).2.movie_cast ++
              [⟨mid, (get_or_create_person db nm).1, k⟩] }
        (get_or_create_person db nm).2 mid (get_or_create_person db nm).1 k rfl
      have hcastg : castFor (get_or_create_person db nm).2 mid = castFor db mid := by
        unfold castFor; rw [hgc]
      have hcastg2 : ∀ m, castFor (get_or_create_person db nm).2 m = castFor db m := by
        intro m; unfold castFor; rw [hgc]
      have hpw2 : PW { (get_or_create_person db nm).2 with movie_cast :=
          (get_or_create_person db nm).2.movie_cast ++
            [⟨mid, (get_or_create_person db nm).1, k⟩] } := hgpw
      have hinv2 : ∀ c ∈ castFor { (get_or_create_person db nm).2 with movie_cast :=
          (get_or_create_person db nm).2.movie_cast ++
            [⟨mid, (get_or_create_person db nm).1, k⟩] } mid,
          c.person_id < (get_or_create_person db nm).2.next_person_id := by
        intro c hc2
        rw [hcmid, hcastg] at hc2
        rcases List.mem_append.mp hc2 with hc2 | hc2
        · exact lt_of_lt_of_le (hinv c hc2) hgnle
        · rcases List.mem_singleton.mp hc2 with rfl
          exact hgidlt
      obtain ⟨hpw', hm', hd', hnm', hnd', ⟨ex1, hex1⟩, hnple', hoth', pids', hlen',
        hcast', hnames'⟩ := ih _ (k + 1) db' hpw2 hinv2 hok
      refine ⟨hpw', by rw [hm', hgm], by rw [hd', hgd], by rw [hnm', hgnm],
        by rw [hnd', hgnd], ⟨ex0 ++ ex1, by rw [hex1, hex0, List.append_assoc]⟩,
        le_trans hgnle hnple', ?_, (get_or_create_person db nm).1 :: pids', ?_, ?_, ?_⟩
      · intro m hm
        rw [hoth' m hm, hcoth m hm, hcastg2 m]
      · simp [hlen']
      · rw [hcast', hcmid, hcastg, List.append_assoc]
        congr 1
      · rw [List.map_cons, List.map_cons, hnames']
        congr 1
        exact personName_stable ⟨ex1, hex1⟩ hgfind

theorem filter_not_filter_self (p : α → Bool) : ∀ l : List α,
    (l.filter (fun a => !p a)).filter p = []
  | [] => rfl
  | a :: t => by
    by_cases h : p a = true
    · simp [List.filter_cons, h, filter_not_filter_self p t]
    · simp [List.filter_cons, h, filter_not_filter_self p t]

theorem filter_of_disjoint (p q : α → Bool) (hpq : ∀ a, q a = true → p a = false) :
    ∀ l : List α, (l.filter (fun a => !p a)).filter q = l.filter q
  | [] => rfl
  | a :: t => by
    by_cases hq : q a = true
    · have hp := hpq a hq
      simp [List.filter_cons, hq, hp, filter_of_disjoint p q hpq t]
    · by_cases hp : p a = true
      · simp [List.filter_cons, hq, hp, filter_of_disjoint p q hpq t]
      · simp [List.filter_cons, hq, hp, filter_of_disjoint p q hpq t]


theorem insertCastLoop_len (mid : Nat) :
    ∀ (names : List String) (db : DB) (k : Nat) (db' : DB),
      insertCastLoop mid db names k = .ok db' →
      (castFor db' mid).length ≤ (castFor db mid).length + names.length ∧
      ∀ m, m ≠ mid → castFor db' m = castFor db m := by
  intro names
  induction names with
  | nil =>
    intro db k db' hok
    unfold insertCastLoop at hok
    cases hok
    exact ⟨Nat.le_add_right _ _, fun m _ => rfl⟩
  | cons nm rest ih =>
    intro db k db' hok
    rw [insertCastLoop_cons] at hok
    by_cases hcnd : ((get_or_create_person db nm).2.movie_cast.any fun c =>
        decide (c.movie_id = mid) && decide (c.person_id = (get_or_create_person db nm).1)) = true
    · rw [if_pos hcnd] at hok; cases hok
    · rw [if_neg hcnd] at hok
      obtain ⟨hgm, hgc, hgd, hgnm, hgnd⟩ := gcp_frame db nm
      set db2 : DB := { (get_or_create_person db nm).2 with movie_cast :=
          (get_or_create_person db nm).2.movie_cast ++
            [⟨mid, (get_or_create_person db nm).1, k⟩] } with hdb2
      have h2cast : db2.movie_cast = (get_or_create_person db nm).2.movie_cast ++
          [⟨mid, (get_or_create_person db nm).1, k⟩] := rfl
      have hcmid : castFor db2 mid =
          castFor db mid ++ [⟨mid, (get_or_create_person db nm).1, k⟩] := by
        unfold castFor
        rw [h2cast, hgc, List.filter_append]
        simp [List.filter]
      have hcoth : ∀ m, m ≠ mid → castFor db2 m = castFor db m := by
        intro m hm
        unfold castFor
        rw [h2cast, hgc, List.filter_append]
        have hne : ¬ (mid = m) := fun he => hm he.symm
        simp [List.filter, hne]
      obtain ⟨hl, ho⟩ := ih db2 (k + 1) db' hok
      constructor
      · rw [hcmid, List.length_append] at hl
        simp only [List.length_cons, List.length_nil] at hl ⊢
        omega
      · intro m hm
        rw [ho m hm, hcoth m hm]

theorem insertCastLoop_err (mid : Nat) :
    ∀ (names : List String) (db : DB) (k : Nat),
      PW db →
      (¬ names.Nodup ∨ ∃ nm ∈ names, ∃ pid, personId db nm = some pid ∧
        ∃ c ∈ castFor db mid, c.person_id = pid) →
      insertCastLoop mid db names k = .error () := by
  intro names
  induction names with
  | nil =>
    intro db k _ h
    rcases h with h | ⟨nm, hnm, _⟩
    · exact absurd List.nodup_nil h
    · cases hnm
  | cons nm0 rest ih =>
    intro db k hpw h
    rw [insertCastLoop_cons]
    by_cases hc : ((get_or_create_person db nm0).2.movie_cast.any fun c =>
        decide (c.movie_id = mid) && decide (c.person_id = (get_or_create_person db nm0).1)) = true
    · rw [if_pos hc]
    · rw [if_neg hc]
      obtain ⟨hgm, hgc, hgd, hgnm, hgnd⟩ := gcp_frame db nm0
      have hgpw := gcp_PW db nm0 hpw
      obtain ⟨ex0, hex0⟩ := gcp_person_mono db nm0
      set db2 : DB := { (get_or_create_person db nm0).2 with movie_cast :=
          (get_or_create_person db nm0).2.movie_cast ++
            [⟨mid, (get_or_create_person db nm0).1, k⟩] } with hdb2
      have h2person : db2.person = (get_or_create_person db nm0).2.person := rfl
      have h2cast : db2.movie_cast = (get_or_create_person db nm0).2.movie_cast ++
          [⟨mid, (get_or_create_person db nm0).1, k⟩] := rfl
      have h2pw : PW db2 := hgpw
      have hcmid : castFor db2 mid =
          castFor db mid ++ [⟨mid, (get_or_create_person db nm0).1, k⟩] := by
        unfold castFor
        rw [h2cast, hgc, List.filter_append]
        simp [List.filter]
      have hstab : ∀ nm pid, personId db nm = some pid → personId db2 nm = some pid := by
        intro nm pid hp
        refine personId_stable nm ⟨ex0, ?_⟩ hp
        rw [h2person, hex0]
      have hafter : personId db2 nm0 = some (get_or_create_person db nm0).1 := by
        have h6 := gcp_personId_after db nm0
        unfold personId at h6 ⊢
        rw [h2person]
        exact h6
      apply ih db2 (k + 1) h2pw
      rcases h with h | ⟨nm, hnm, pid, hpid, c, hcmem, hcp⟩
      · by_cases h0 : nm0 ∈ rest
        · right
          refine ⟨nm0, h0, (get_or_create_person db nm0).1, hafter,
            ⟨mid, (get_or_create_person db nm0).1, k⟩, ?_, rfl⟩
          rw [hcmid]
          exact List.mem_append_right _ (List.mem_singleton.mpr rfl)
        · left
          intro hr
          exact h (List.nodup_cons.mpr ⟨h0, hr⟩)
      · rcases List.mem_cons.mp hnm with heq | hnm
        · exfalso
          rw [heq] at hpid
          obtain ⟨hid, hdb⟩ := gcp_of_personId_some db nm0 pid hpid
          apply hc
          rw [List.any_eq_true]
          refine ⟨c, ?_, ?_⟩
          · rw [hdb]
            exact List.mem_of_mem_filter hcmem
          · have hcm : c.movie_id = mid := by
              have h5 := List.of_mem_filter hcmem
              simpa using h5
            simp [hcm, hcp, hid]
        · right
          refine ⟨nm, hnm, pid, hstab nm pid hpid, c, ?_, hcp⟩
          rw [hcmid]
          exact List.mem_append_left _ hcmem

theorem castDel_self (db : DB) (mid : Nat) :
    castFor { db with movie_cast :=
      db.movie_cast.filter (fun c => !decide (c.movie_id = mid)) } mid = [] := by
  unfold castFor
  exact filter_not_filter_self _ db.movie_cast

theorem castDel_other (db : DB) (mid : Nat) : ∀ m, m ≠ mid →
    castFor { db with movie_cast :=
      db.movie_cast.filter (fun c => !decide (c.movie_id = mid)) } m = castFor db m := by
  intro m hm
  unfold castFor
  apply filter_of_disjoint
  intro c hcq
  simp only [decide_eq_true_eq] at hcq
  simp [hcq, hm]

theorem replace_ok (db : DB) (mid : Nat) (names : List String) (db' : DB)
    (hpw : PW db) (hok : replace_movie_cast db mid names = .ok db') :
    PW db' ∧
    db'.movie = db.movie ∧ db'.diary = db.diary ∧
    db'.next_movie_id = db.next_movie_id ∧ db'.next_diary_id = db.next_diary_id ∧
    (∃ ex, db'.person = db.person ++ ex) ∧
    (∀ m, m ≠ mid → castFor db' m = castFor db m) ∧
    ∃ pids, pids.length = min 10 names.length ∧
      castFor db' mid = List.zipWith (fun pid o => CastRow.mk mid pid o) pids
        (List.range' 1 (min 10 names.length)) ∧
      pids.map (fun pid => personName db' pid) = (names.take 10).map some := by
  unfold replace_movie_cast at hok
  have hinv := castDel_self db mid
  have hpwDel : PW { db with movie_cast := db.movie_cast.filter (fun c => !decide (c.movie_id = mid)) } := hpw
  obtain ⟨hpw', hm', hd', hnm', hnd', hex, _, hoth, pids, hlen, hcast, hmap⟩ :=
    insertCastLoop_ok mid (names.take 10) _ 1 db' hpwDel
      (by rw [hinv]; intro c hc; cases hc) hok
  refine ⟨hpw', hm', hd', hnm', hnd', hex, ?_, pids, ?_, ?_, hmap⟩
  · intro m hm
    rw [hoth m hm]
    exact castDel_other db mid m hm
  · rw [hlen, List.length_take]
  · rw [hcast, castDel_self, List.nil_append, List.length_take]

theorem replace_err (db : DB) (mid : Nat) (names : List String)
    (hpw : PW db) (hdup : ¬ (names.take 10).Nodup) :
    replace_movie_cast db mid names = .error () := by
  unfold replace_movie_cast
  exact insertCastLoop_err mid (names.take 10) _ 1 hpw (Or.inl hdup)

theorem replace_len (db : DB) (mid : Nat) (names : List String) (db' : DB)
    (hok : replace_movie_cast db mid names = .ok db') :
    (castFor db' mid).length ≤ 10 ∧
    ∀ m, m ≠ mid → castFor db' m = castFor db m := by
  unfold replace_movie_cast at hok
  obtain ⟨hl, ho⟩ := insertCastLoop_len mid (names.take 10) _ 1 db' hok
  constructor
  · rw [castDel_self] at hl
    simp only [List.length_nil, Nat.zero_add] at hl
    exact le_trans hl (List.length_take_le 10 names)
  · intro m hm
    rw [ho m hm, castDel_other db mid m hm]

/-! ## Movie-upsert lemmas -/

theorem mUpsert_found (M : List MovieRow) (n t : Nat) (v : MovieVals) (m : MovieRow)
    (hf : M.find? (fun m => decide (m.tmdb_id = t)) = some m) :
    mUpsert (M, n) (t, v) =
      (M.map (fun m2 => if m2.tmdb_id = t then overwriteVals m2 v else m2), n) := by
  unfold mUpsert
  rw [hf]

theorem mUpsert_none (M : List MovieRow) (n t : Nat) (v : MovieVals)
    (hf : M.find? (fun m => decide (m.tmdb_id = t)) = none) :
    mUpsert (M, n) (t, v) =
      (M ++ [⟨n, t, v.title, v.director, v.year, v.length_min, v.rating⟩], n + 1) := by
  unfold mUpsert
  rw [hf]

theorem iou_eq_mUpsert (db : DB) (t : Nat) (title : String) (director : Option String)
    (year : Option Int) (length_min : Option Int) (rating : Option Rat) :
    (insert_or_update_movie db t title director year length_min rating).2.movie
      = (mUpsert (db.movie, db.next_movie_id) (t, ⟨title, director, year, length_min, rating⟩)).1 ∧
    (insert_or_update_movie db t title director year length_min rating).2.next_movie_id
      = (mUpsert (db.movie, db.next_movie_id) (t, ⟨title, director, year, length_min, rating⟩)).2 ∧
    (insert_or_update_movie db t title director year length_min rating).2.person
      = db.person ∧
    (insert_or_update_movie db t title director year length_min rating).2.movie_cast
      = db.movie_cast ∧
    (insert_or_update_movie db t title director year length_min rating).2.diary
      = db.diary ∧
    (insert_or_update_movie db t title director year length_min rating).2.next_person_id
      = db.next_person_id ∧
    (insert_or_update_movie db t title director year length_min rating).2.next_diary_id
      = db.next_diary_id := by
  unfold insert_or_update_movie
  cases hf : db.movie.find? (fun m => decide (m.tmdb_id = t)) with
  | some m =>
    rw [mUpsert_found db.movie db.next_movie_id t ⟨title, director, year, length_min, rating⟩ m hf]
    simp
  | none =>
    rw [mUpsert_none db.movie db.next_movie_id t ⟨title, director, year, length_min, rating⟩ hf]
    simp

theorem mUpsert_pred_comp (t : Nat) (v : MovieVals) :
    ((fun m : MovieRow => decide (m.tmdb_id = t)) ∘
      (fun m2 : MovieRow => if m2.tmdb_id = t then overwriteVals m2 v else m2)) =
    (fun m : MovieRow => decide (m.tmdb_id = t)) := by
  funext m2
  by_cases h : m2.tmdb_id = t
  · simp [h, overwriteVals]
  · simp [h]

theorem mUpsert_pred_comp2 (t t2 : Nat) (v : MovieVals) :
    ((fun m : MovieRow => decide (m.tmdb_id = t2)) ∘
      (fun m2 : MovieRow => if m2.tmdb_id = t then overwriteVals m2 v else m2)) =
    (fun m : MovieRow => decide (m.tmdb_id = t2)) := by
  funext m2
  by_cases h : m2.tmdb_id = t
  · simp [h, overwriteVals]
  · simp [h]

theorem valAt_mUpsert_self (M : List MovieRow) (n t : Nat) (v : MovieVals) :
    valAt (mUpsert (M, n) (t, v)).1 t = some v := by
  cases hf : M.find? (fun m => decide (m.tmdb_id = t)) with
  | some m =>
    rw [mUpsert_found M n t v m hf]
    unfold valAt
    rw [List.find?_map, mUpsert_pred_comp, hf]
    have hm : m.tmdb_id = t := by
      have h2 := List.find?_some hf
      simpa using h2
    simp only [Option.map_map]
    simp [hm, valsOf, overwriteVals]
  | none =>
    rw [mUpsert_none M n t v hf]
    unfold valAt
    rw [List.find?_append, hf]
    simp [List.find?, valsOf]

theorem valAt_mUpsert_other (M : List MovieRow) (n t t2 : Nat) (v : MovieVals)
    (hne : t2 ≠ t) : valAt (mUpsert (M, n) (t, v)).1 t2 = valAt M t2 := by
  cases hf : M.find? (fun m => decide (m.tmdb_id = t)) with
  | some m =>
    rw [mUpsert_found M n t v m hf]
    unfold valAt
    rw [List.find?_map, mUpsert_pred_comp2]
    cases hf2 : M.find? (fun m => decide (m.tmdb_id = t2)) with
    | none => rfl
    | some m2 =>
      have hm2 : m2.tmdb_id = t2 := by
        have h2 := List.find?_some hf2
        simpa using h2
      have hne2 : ¬ (m2.tmdb_id = t) := by rw [hm2]; exact hne
      simp [hne2]
  | none =>
    rw [mUpsert_none M n t v hf]
    unfold valAt
    rw [List.find?_append]
    have hsing : List.find? (fun m : MovieRow => decide (m.tmdb_id = t2))
        [⟨n, t, v.title, v.director, v.year, v.length_min, v.rating⟩] = none := by
      rw [List.find?_eq_none]
      intro x hx
      rcases List.mem_singleton.mp hx with rfl
      simp only [decide_eq_true_eq]
      exact fun he => hne he.symm
    rw [hsing, Option.or_none]

theorem tmdbs_mUpsert_found (M : List MovieRow) (n t : Nat) (v : MovieVals) (m : MovieRow)
    (hf : M.find? (fun m => decide (m.tmdb_id = t)) = some m) :
    tmdbs (mUpsert (M, n) (t, v)).1 = tmdbs M ∧ (mUpsert (M, n) (t, v)).2 = n ∧
    (mUpsert (M, n) (t, v)).1.length = M.length := by
  rw [mUpsert_found M n t v m hf]
  refine ⟨?_, rfl, by simp⟩
  unfold tmdbs
  rw [List.map_map]
  apply List.map_congr_left
  intro m2 _
  by_cases h : m2.tmdb_id = t
  · simp [h, overwriteVals]
  · simp [h]

theorem tmdbs_mUpsert_sub (M : List MovieRow) (n t : Nat) (v : MovieVals) :
    tmdbs M ⊆ tmdbs (mUpsert (M, n) (t, v)).1 ∧ t ∈ tmdbs (mUpsert (M, n) (t, v)).1 := by
  cases hf : M.find? (fun m => decide (m.tmdb_id = t)) with
  | some m =>
    have heq := (tmdbs_mUpsert_found M n t v m hf).1
    rw [heq]
    have hmt : m.tmdb_id = t := by
      have h2 := List.find?_some hf
      simpa using h2
    exact ⟨fun x hx => hx, by
      unfold tmdbs
      exact List.mem_map.mpr ⟨m, List.mem_of_find?_eq_some hf, hmt⟩⟩
  | none =>
    rw [mUpsert_none M n t v hf]
    unfold tmdbs
    rw [List.map_append]
    constructor
    · intro x hx
      exact List.mem_append_left _ hx
    · exact List.mem_append_right _ (by simp)

theorem tmdbs_mUpsert_nodup (M : List MovieRow) (n t : Nat) (v : MovieVals)
    (hnd : (tmdbs M).Nodup) : (tmdbs (mUpsert (M, n) (t, v)).1).Nodup := by
  cases hf : M.find? (fun m => decide (m.tmdb_id = t)) with
  | some m =>
    rw [(tmdbs_mUpsert_found M n t v m hf).1]
    exact hnd
  | none =>
    rw [mUpsert_none M n t v hf]
    unfold tmdbs at hnd ⊢
    rw [List.map_append, List.map_singleton]
    rw [List.nodup_append]
    refine ⟨hnd, List.nodup_singleton _, ?_⟩
    intro x hx hmem
    rcases List.mem_singleton.mp hmem with rfl
    rcases List.mem_map.mp hx with ⟨m2, hm2, hm2t⟩
    have h3 := List.find?_eq_none.mp hf m2 hm2
    simp only [decide_eq_true_eq] at h3
    exact h3 hm2t

theorem overwrite_comp (m : MovieRow) (v1 v2 : MovieVals) :
    overwriteVals (overwriteVals m v1) v2 = overwriteVals m v2 := rfl

theorem overwrite_tmdb (m : MovieRow) (v : MovieVals) :
    (overwriteVals m v).tmdb_id = m.tmdb_id := rfl

theorem overwrite_of_valsOf (m : MovieRow) (v : MovieVals) (h : valsOf m = v) :
    overwriteVals m v = m := by
  subst h
  cases m
  rfl

theorem find_tmdb_of_mem {M : List MovieRow} {t : Nat} (h : t ∈ tmdbs M) :
    ∃ m, M.find? (fun m => decide (m.tmdb_id = t)) = some m := by
  cases hf : M.find? (fun m => decide (m.tmdb_id = t)) with
  | some m => exact ⟨m, rfl⟩
  | none =>
    exfalso
    rcases List.mem_map.mp h with ⟨m, hm, hmt⟩
    have h2 := List.find?_eq_none.mp hf m hm
    simp only [decide_eq_true_eq] at h2
    exact h2 hmt

theorem tmdbs_map_upd (M : List MovieRow) (t : Nat) (v : MovieVals) :
    tmdbs (M.map (fun m2 => if m2.tmdb_id = t then overwriteVals m2 v else m2)) = tmdbs M := by
  unfold tmdbs
  rw [List.map_map]
  apply List.map_congr_left
  intro m2 _
  by_cases h : m2.tmdb_id = t
  · simp [h, overwriteVals]
  · simp [h]

theorem lastVal_isSome_iff (t : Nat) : ∀ us : List (Nat × MovieVals),
    (lastVal us t).isSome = true ↔ t ∈ us.map (fun u => u.1)
  | [] => by simp [lastVal]
  | u :: rest => by
    simp only [lastVal, List.map_cons, List.mem_cons]
    cases hlv : lastVal rest t with
    | some v =>
      have h1 := (lastVal_isSome_iff t rest)
      rw [hlv] at h1
      simp only [Option.isSome_some, true_iff] at h1
      simp [h1]
    | none =>
      have h1 := (lastVal_isSome_iff t rest)
      rw [hlv] at h1
      simp only [Option.isSome_none, Bool.false_eq_true, false_iff] at h1
      by_cases h : u.1 = t
      · simp [h, h1]
      · have hne : ¬ (t = u.1) := fun he => h he.symm
        simp [h, h1, hne]

theorem mFold_frame (t : Nat) : ∀ (us : List (Nat × MovieVals)) (M : List MovieRow) (n : Nat),
    (∀ u ∈ us, u.1 ≠ t) →
    valAt (us.foldl mUpsert (M, n)).1 t = valAt M t
  | [], M, n, _ => rfl
  | u :: rest, M, n, h => by
    rw [List.foldl_cons]
    have h1 := mFold_frame t rest (mUpsert (M, n) u).1 (mUpsert (M, n) u).2
      (fun u2 hu2 => h u2 (List.mem_cons_of_mem u hu2))
    have h2 : valAt (mUpsert (M, n) u).1 t = valAt M t :=
      valAt_mUpsert_other M n u.1 t u.2 (Ne.symm (h u (List.mem_cons_self u rest)))
    exact h1.trans h2

theorem mFold_valAt (t : Nat) : ∀ (us : List (Nat × MovieVals)) (M : List MovieRow) (n : Nat),
    t ∈ us.map (fun u => u.1) →
    valAt (us.foldl mUpsert (M, n)).1 t = lastVal us t
  | [], _, _, hmem => by cases hmem
  | u :: rest, M, n, hmem => by
    rw [List.foldl_cons]
    by_cases hr : t ∈ rest.map (fun u => u.1)
    · have hs := (lastVal_isSome_iff t rest).mpr hr
      cases hlv : lastVal rest t with
      | none => rw [hlv] at hs; cases hs
      | some v =>
        have h1 := mFold_valAt t rest (mUpsert (M, n) u).1 (mUpsert (M, n) u).2 hr
        simp only [lastVal, hlv]
        exact h1.trans hlv
    · have ht : u.1 = t := by
        rw [List.map_cons] at hmem
        rcases List.mem_cons.mp hmem with he | he
        · exact he.symm
        · exact absurd he hr
      have hln : lastVal rest t = none := by
        cases hlv : lastVal rest t with
        | none => rfl
        | some v =>
          exfalso
          exact hr ((lastVal_isSome_iff t rest).mp (by rw [hlv]; rfl))
      have h1 := mFold_frame t rest (mUpsert (M, n) u).1 (mUpsert (M, n) u).2
        (fun u2 hu2 => fun he => hr (he ▸ List.mem_map_of_mem (fun u => u.1) hu2))
      have h2 : valAt (mUpsert (M, n) u).1 t = some u.2 := by
        rw [← ht]
        exact valAt_mUpsert_self M n u.1 u.2
      simp only [lastVal, hln, ht, if_true]
      exact h1.trans h2

theorem mFold_mem (t : Nat) : ∀ (us : List (Nat × MovieVals)) (M : List MovieRow) (n : Nat),
    (t ∈ tmdbs M ∨ t ∈ us.map (fun u => u.1)) →
    t ∈ tmdbs (us.foldl mUpsert (M, n)).1
  | [], M, n, h => by
    rcases h with h | h
    · exact h
    · cases h
  | u :: rest, M, n, h => by
    rw [List.foldl_cons]
    apply mFold_mem t rest (mUpsert (M, n) u).1 (mUpsert (M, n) u).2
    rcases h with h | h
    · exact Or.inl ((tmdbs_mUpsert_sub M n u.1 u.2).1 h)
    · rw [List.map_cons] at h
      rcases List.mem_cons.mp h with he | he
      · exact Or.inl (he ▸ (tmdbs_mUpsert_sub M n u.1 u.2).2)
      · exact Or.inr he

theorem mFold_nodup : ∀ (us : List (Nat × MovieVals)) (M : List MovieRow) (n : Nat),
    (tmdbs M).Nodup → (tmdbs (us.foldl mUpsert (M, n)).1).Nodup
  | [], M, n, h => h
  | u :: rest, M, n, h => by
    rw [List.foldl_cons]
    exact mFold_nodup rest (mUpsert (M, n) u).1 (mUpsert (M, n) u).2
      (tmdbs_mUpsert_nodup M n u.1 u.2 h)

theorem mFold_update_form : ∀ (us : List (Nat × MovieVals)) (M : List MovieRow) (n : Nat),
    (∀ u ∈ us, u.1 ∈ tmdbs M) →
    us.foldl mUpsert (M, n) =
      (M.map (fun m => match lastVal us m.tmdb_id with
        | some v => overwriteVals m v
        | none => m), n)
  | [], M, n, _ => by simp [lastVal]
  | u :: rest, M, n, h => by
    rw [List.foldl_cons]
    have hu : u.1 ∈ tmdbs M := h u (List.mem_cons_self u rest)
    obtain ⟨m0, hm0⟩ := find_tmdb_of_mem hu
    rw [show mUpsert (M, n) u =
        (M.map (fun m2 => if m2.tmdb_id = u.1 then overwriteVals m2 u.2 else m2), n) from
      mUpsert_found M n u.1 u.2 m0 hm0]
    rw [mFold_update_form rest _ n (fun u2 hu2 => by
      rw [tmdbs_map_upd]
      exact h u2 (List.mem_cons_of_mem u hu2))]
    rw [List.map_map]
    refine congrArg (fun M2 => (M2, n)) ?_
    apply List.map_congr_left
    intro m _
    simp only [Function.comp]
    by_cases hc : m.tmdb_id = u.1
    · simp only [hc, if_true]
      cases hlv : lastVal rest u.1 with
      | some v =>
        simp only [lastVal, overwrite_tmdb, hc, hlv, overwrite_comp]
      | none =>
        simp only [lastVal, overwrite_tmdb, hc, hlv, if_true]
    · simp only [hc, if_false]
      cases hlv : lastVal rest m.tmdb_id with
      | some v => simp only [lastVal, hlv]
      | none =>
        have hne : ¬ (u.1 = m.tmdb_id) := fun he => hc he.symm
        simp only [lastVal, hlv, hne, if_false]

theorem mFold_idem (us : List (Nat × MovieVals)) (M0 : List MovieRow) (n0 n1 : Nat)
    (hnd0 : (tmdbs M0).Nodup) :
    (us.foldl mUpsert ((us.foldl mUpsert (M0, n0)).1, n1)).1 =
      (us.foldl mUpsert (M0, n0)).1 := by
  have hnd1 : (tmdbs (us.foldl mUpsert (M0, n0)).1).Nodup := mFold_nodup us M0 n0 hnd0
  have hpres : ∀ u ∈ us, u.1 ∈ tmdbs (us.foldl mUpsert (M0, n0)).1 :=
    fun u hu => mFold_mem u.1 us M0 n0 (Or.inr (List.mem_map_of_mem (fun u => u.1) hu))
  rw [mFold_update_form us _ n1 hpres]
  simp only []
  conv_rhs => rw [← List.map_id ((us.foldl mUpsert (M0, n0)).1)]
  apply List.map_congr_left
  intro m hm
  cases hlv : lastVal us m.tmdb_id with
  | none => simp [hlv]
  | some v =>
    have hk : m.tmdb_id ∈ us.map (fun u => u.1) :=
      (lastVal_isSome_iff m.tmdb_id us).mp (by rw [hlv]; rfl)
    have hv1 := mFold_valAt m.tmdb_id us M0 n0 hk
    have hv2 : valAt (us.foldl mUpsert (M0, n0)).1 m.tmdb_id = some (valsOf m) := by
      unfold valAt
      rw [find?_key_eq_self (fun m : MovieRow => m.tmdb_id) hnd1 hm]
      rfl
    rw [hlv] at hv1
    have hvv : valsOf m = v := by
      have h3 := hv2.symm.trans hv1
      injection h3
    simp [hlv, overwrite_of_valsOf m v hvv]

/-! ## process_csv lemmas -/

theorem castFor_of_cast_eq {a b : DB} (h : a.movie_cast = b.movie_cast) (m : Nat) :
    castFor a m = castFor b m := by
  unfold castFor
  rw [h]

theorem insertCastLoop_frame (mid : Nat) :
    ∀ (names : List String) (db : DB) (k : Nat) (db' : DB),
      insertCastLoop mid db names k = .ok db' →
      db'.movie = db.movie ∧ db'.diary = db.diary ∧
      db'.next_movie_id = db.next_movie_id ∧ db'.next_diary_id = db.next_diary_id ∧
      (PW db → PW db') := by
  intro names
  induction names with
  | nil =>
    intro db k db' hok
    unfold insertCastLoop at hok
    cases hok
    exact ⟨rfl, rfl, rfl, rfl, id⟩
  | cons nm rest ih =>
    intro db k db' hok
    rw [insertCastLoop_cons] at hok
    by_cases hc : ((get_or_create_person db nm).2.movie_cast.any fun c =>
        decide (c.movie_id = mid) && decide (c.person_id = (get_or_create_person db nm).1)) = true
    · rw [if_pos hc] at hok; cases hok
    · rw [if_neg hc] at hok
      obtain ⟨hgm, hgc, hgd, hgnm, hgnd⟩ := gcp_frame db nm
      obtain ⟨hm2, hd2, hnm2, hnd2, hpw2⟩ := ih _ (k + 1) db' hok
      exact ⟨hm2.trans hgm, hd2.trans hgd, hnm2.trans hgnm, hnd2.trans hgnd,
        fun hpw => hpw2 (gcp_PW db nm hpw)⟩

theorem replace_frame (db : DB) (mid : Nat) (names : List String) (db' : DB)
    (hok : replace_movie_cast db mid names = .ok db') :
    db'.movie = db.movie ∧ db'.diary = db.diary ∧
    db'.next_movie_id = db.next_movie_id ∧ db'.next_diary_id = db.next_diary_id ∧
    (PW db → PW db') := by
  unfold replace_movie_cast at hok
  have h := insertCastLoop_frame mid (names.take 10) _ 1 db' hok
  exact h

theorem processRow_skip (api : Api) (db : DB) (row : List String)
    (h : resolveRow api row = none) : processRow api db row = .ok db := by
  unfold processRow
  rw [h]

theorem processRow_resolved (api : Api) (db : DB) (row : List String) (r : ResolvedRow)
    (h : resolveRow api row = some r) (db' : DB) (hok : processRow api db row = .ok db') :
    db'.movie = (mUpsert (db.movie, db.next_movie_id) (r.tmdb_id, rvals r)).1 ∧
    db'.next_movie_id = (mUpsert (db.movie, db.next_movie_id) (r.tmdb_id, rvals r)).2 ∧
    db'.diary = db.diary ∧ db'.next_diary_id = db.next_diary_id ∧
    (PW db → PW db') := by
  unfold processRow at hok
  rw [h] at hok
  obtain ⟨hfm, hfd, hfnm, hfnd, hfpw⟩ := replace_frame _ _ r.cast_names db' hok
  obtain ⟨him, hinm, hiper, hic, hid, hinp, hind⟩ :=
    iou_eq_mUpsert db r.tmdb_id r.title r.director r.year r.length_min (some r.rating)
  refine ⟨hfm.trans him, hfnm.trans hinm, hfd.trans hid, hfnd.trans hind, ?_⟩
  intro hpw
  apply hfpw
  obtain ⟨h1, h2, h3⟩ := hpw
  exact ⟨by rw [hiper]; exact h1, by rw [hiper]; exact h2, by rw [hiper, hinp]; exact h3⟩

theorem process_cons (api : Api) (db : DB) (row : List String) (rest : List (List String)) :
    process_csv api db (row :: rest) =
      (match processRow api db row with
       | .ok db1 => process_csv api db1 rest
       | .error e => .error e) := rfl

theorem process_movie (api : Api) : ∀ (rows : List (List String)) (db db' : DB),
    process_csv api db rows = .ok db' →
    (db'.movie, db'.next_movie_id) =
      (upsertsOf api rows).foldl mUpsert (db.movie, db.next_movie_id) ∧
    db'.diary = db.diary ∧ db'.next_diary_id = db.next_diary_id ∧ (PW db → PW db') := by
  intro rows
  induction rows with
  | nil =>
    intro db db' hok
    unfold process_csv at hok
    cases hok
    exact ⟨rfl, rfl, rfl, id⟩
  | cons row rest ih =>
    intro db db' hok
    rw [process_cons] at hok
    cases hres : resolveRow api row with
    | none =>
      rw [processRow_skip api db row hres] at hok
      have hup : upsertsOf api (row :: rest) = upsertsOf api rest := by
        unfold upsertsOf
        rw [List.filterMap_cons, hres]
        rfl
      rw [hup]
      exact ih db db' hok
    | some r =>
      cases hpr : processRow api db row with
      | error e => rw [hpr] at hok; cases hok
      | ok db1 =>
        rw [hpr] at hok
        obtain ⟨hm1, hnm1, hd1, hnd1, hpw1⟩ := processRow_resolved api db row r hres db1 hpr
        obtain ⟨hfold, hd2, hnd2, hpw2⟩ := ih db1 db' hok
        have hup : upsertsOf api (row :: rest) =
            (r.tmdb_id, rvals r) :: upsertsOf api rest := by
          unfold upsertsOf
          rw [List.filterMap_cons, hres]
          rfl
        rw [hup, List.foldl_cons]
        refine ⟨?_, hd2.trans hd1, hnd2.trans hnd1, fun hpw => hpw2 (hpw1 hpw)⟩
        rw [hfold]
        have hpair : (db1.movie, db1.next_movie_id) =
            mUpsert (db.movie, db.next_movie_id) (r.tmdb_id, rvals r) := by
          rw [hm1, hnm1]
        rw [hpair]

theorem process_skip_filter (api : Api) : ∀ (rows : List (List String)) (db : DB),
    process_csv api db rows =
      process_csv api db (rows.filter (fun row => !rowSkipped api row)) := by
  intro rows
  induction rows with
  | nil => intro db; rfl
  | cons row rest ih =>
    intro db
    cases hres : resolveRow api row with
    | none =>
      have hsk : rowSkipped api row = true := by unfold rowSkipped; rw [hres]; rfl
      rw [List.filter_cons, process_cons, processRow_skip api db row hres]
      simp only [hsk, Bool.not_true, Bool.false_eq_true, if_false]
      exact ih db
    | some r =>
      have hsk : rowSkipped api row = false := by unfold rowSkipped; rw [hres]; rfl
      rw [List.filter_cons]
      simp only [hsk, Bool.not_false, if_true]
      rw [process_cons, process_cons]
      cases hpr : processRow api db row with
      | error e => rfl
      | ok db1 => exact ih db1

theorem process_cast_bound (api : Api) : ∀ (rows : List (List String)) (db db' : DB),
    (∀ m, (castFor db m).length ≤ 10) →
    process_csv api db rows = .ok db' →
    ∀ m, (castFor db' m).length ≤ 10 := by
  intro rows
  induction rows with
  | nil =>
    intro db db' hb hok
    unfold process_csv at hok
    cases hok
    exact hb
  | cons row rest ih =>
    intro db db' hb hok
    rw [process_cons] at hok
    cases hres : resolveRow api row with
    | none =>
      rw [processRow_skip api db row hres] at hok
      exact ih db db' hb hok
    | some r =>
      cases hpr : processRow api db row with
      | error e => rw [hpr] at hok; cases hok
      | ok db1 =>
        rw [hpr] at hok
        refine ih db1 db' ?_ hok
        unfold processRow at hpr
        rw [hres] at hpr
        obtain ⟨hl10, hoth⟩ := replace_len _ _ r.cast_names db1 hpr
        obtain ⟨_, _, _, hic, _, _, _⟩ :=
          iou_eq_mUpsert db r.tmdb_id r.title r.director r.year r.length_min (some r.rating)
        intro m
        by_cases hm : m = (insert_or_update_movie db r.tmdb_id r.title r.director r.year
            r.length_min (some r.rating)).1
        · rw [hm]
          exact hl10
        · rw [hoth m hm, castFor_of_cast_eq hic m]
          exact hb m

/-! ## diary lemmas -/

theorem diaryStep_frame (db : DB) (row : List String) :
    (diaryStep db row).movie = db.movie ∧ (diaryStep db row).person = db.person ∧
    (diaryStep db row).movie_cast = db.movie_cast ∧
    ∃ new, (diaryStep db row).diary = db.diary ++ new := by
  unfold diaryStep
  repeat' split
  all_goals
    first
      | exact ⟨rfl, rfl, rfl, [], (List.append_nil _).symm⟩
      | exact ⟨rfl, rfl, rfl, _, rfl⟩

theorem diaryMerge_frame : ∀ (rows : List (List String)) (db : DB),
    (diaryMerge db rows).movie = db.movie ∧ (diaryMerge db rows).person = db.person ∧
    (diaryMerge db rows).movie_cast = db.movie_cast ∧
    ∃ new, (diaryMerge db rows).diary = db.diary ++ new := by
  intro rows
  induction rows with
  | nil => intro db; exact ⟨rfl, rfl, rfl, [], (List.append_nil _).symm⟩
  | cons row rest ih =>
    intro db
    obtain ⟨hm1, hp1, hc1, new1, hd1⟩ := diaryStep_frame db row
    obtain ⟨hm2, hp2, hc2, new2, hd2⟩ := ih (diaryStep db row)
    refine ⟨hm2.trans hm1, hp2.trans hp1, hc2.trans hc1, new1 ++ new2, ?_⟩
    show (diaryMerge (diaryStep db row) rest).diary = db.diary ++ (new1 ++ new2)
    rw [hd2, hd1, List.append_assoc]

/-! ## Analytics lemmas -/

theorem ratLeB_total : ∀ x y : Rat, ratLeB x y = true ∨ ratLeB y x = true := by
  intro x y
  unfold ratLeB
  rcases le_total x y with h | h
  · left; simpa using h
  · right; simpa using h

theorem ratLeB_trans : ∀ x y z : Rat, ratLeB x y = true → ratLeB y z = true →
    ratLeB x z = true := by
  intro x y z hxy hyz
  unfold ratLeB at hxy hyz ⊢
  simp only [decide_eq_true_eq] at hxy hyz ⊢
  exact le_trans hxy hyz

theorem avgDescB_total : ∀ x y : RankRow, avgDescB x y = true ∨ avgDescB y x = true := by
  intro x y
  unfold avgDescB
  rcases le_total y.avg_rating x.avg_rating with h | h
  · left; simpa using h
  · right; simpa using h

theorem avgDescB_trans : ∀ x y z : RankRow, avgDescB x y = true → avgDescB y z = true →
    avgDescB x z = true := by
  intro x y z hxy hyz
  unfold avgDescB at hxy hyz ⊢
  simp only [decide_eq_true_eq] at hxy hyz ⊢
  exact le_trans hyz hxy

theorem sorted_avgDesc (l : List RankRow) :
    (insSort avgDescB l).Pairwise (fun a b => b.avg_rating ≤ a.avg_rating) := by
  have h := pairwise_insSort avgDescB avgDescB_total avgDescB_trans l
  refine h.imp ?_
  intro a b hab
  unfold avgDescB at hab
  simpa using hab

theorem mem_take_of_mem {l : List α} {k : Nat} {a : α} (h : a ∈ l.take k) : a ∈ l :=
  List.mem_of_mem_take h

theorem dirGroup_sub (db : DB) (nm : String) :
    (dirGroup db nm) ⊆ (diaryJoin db).filter (fun dm => decide (dm.2.director = some nm)) := by
  intro x hx
  unfold dirGroup dirRows at hx
  rw [List.mem_filter] at hx
  rcases hx with ⟨hx1, hx2⟩
  rw [List.mem_filter] at hx1
  rw [List.mem_filter]
  exact ⟨hx1.1, hx2⟩

theorem dirGroup_ratings (db : DB) (nm : String) :
    (dirGroup db nm).filterMap (fun dm => dm.2.rating) = dirRatingsAll db nm := by
  unfold dirGroup dirRows dirRatingsAll
  rw [List.filter_filter]
  have hcong : ∀ dm ∈ diaryJoin db,
      (decide (dm.2.director = some nm) && (dm.2.director.isSome && dm.2.rating.isSome))
        = (decide (dm.2.director = some nm) && dm.2.rating.isSome) := by
    intro dm _
    by_cases hd : dm.2.director = some nm
    · simp [hd]
    · simp [hd]
  rw [List.filter_congr hcong]
  exact filterMap_filter_isSome (fun dm => dm.2.rating)
    (fun dm => decide (dm.2.director = some nm)) (diaryJoin db)

theorem dir_out_mem (db : DB) (limit : Nat) (g : RankRow)
    (hg : g ∈ get_top_directors_highest_rated db limit) :
    ∃ nm, g = dirRankRow db nm ∧ 1 < g.movie_count := by
  unfold get_top_directors_highest_rated at hg
  have hg2 := mem_take_of_mem hg
  have hg3 := (perm_insSort avgDescB _).mem_iff.mp hg2
  rw [List.mem_filter] at hg3
  rcases hg3 with ⟨hg4, hg5⟩
  rcases List.mem_map.mp hg4 with ⟨nm, _, hnm⟩
  refine ⟨nm, hnm.symm, ?_⟩
  simpa using hg5

theorem dirRankRow_name (db : DB) (nm : String) : (dirRankRow db nm).name = nm := rfl

theorem dirRankRow_count_le (db : DB) (nm : String) :
    (dirRankRow db nm).movie_count ≤ watchedDirMovies db nm := by
  unfold dirRankRow watchedDirMovies
  simp only []
  exact dedup_length_le_of_subset
    (List.map_subset (fun dm => dm.1.movie_id) (dirGroup_sub db nm))

theorem actGroup_sub (db : DB) (pid : Nat) :
    (actGroup db pid) ⊆ (actorJoin db).filter (fun r => decide (r.p.id = pid)) := by
  intro x hx
  unfold actGroup actRows at hx
  rw [List.mem_filter] at hx
  rcases hx with ⟨hx1, hx2⟩
  rw [List.mem_filter] at hx1
  rw [List.mem_filter]
  exact ⟨hx1.1, hx2⟩

theorem actGroup_ratings (db : DB) (pid : Nat) :
    (actGroup db pid).filterMap (fun r => r.m.rating) = actRatingsAll db pid := by
  unfold actGroup actRows actRatingsAll
  rw [List.filter_filter]
  have hcong : ∀ r ∈ actorJoin db,
      (decide (r.p.id = pid) && r.m.rating.isSome)
        = (decide (r.p.id = pid) && r.m.rating.isSome) := fun _ _ => rfl
  exact filterMap_filter_isSome (fun r => r.m.rating)
    (fun r => decide (r.p.id = pid)) (actorJoin db)

theorem act_out_mem (db : DB) (limit : Nat) (g : RankRow)
    (hg : g ∈ get_top_actors_highest_rated db limit) :
    ∃ pid, g = actorRankRow db pid ∧ 1 < g.movie_count := by
  unfold get_top_actors_highest_rated at hg
  have hg2 := mem_take_of_mem hg
  have hg3 := (perm_insSort avgDescB _).mem_iff.mp hg2
  rw [List.mem_filter] at hg3
  rcases hg3 with ⟨hg4, hg5⟩
  rcases List.mem_map.mp hg4 with ⟨pid, _, hpid⟩
  refine ⟨pid, hpid.symm, ?_⟩
  simpa using hg5

theorem actorRankRow_count_le (db : DB) (pid : Nat) :
    (actorRankRow db pid).movie_count ≤ watchedActMovies db pid := by
  unfold actorRankRow watchedActMovies
  simp only []
  exact dedup_length_le_of_subset
    (List.map_subset (fun r => r.d.movie_id) (actGroup_sub db pid))

theorem pairwise_and {R S : α → α → Prop} : ∀ {l : List α}, l.Pairwise R → l.Pairwise S →
    l.Pairwise (fun a b => R a b ∧ S a b)
  | [], _, _ => List.Pairwise.nil
  | a :: t, hR, hS => by
    rcases List.pairwise_cons.mp hR with ⟨hR1, hR2⟩
    rcases List.pairwise_cons.mp hS with ⟨hS1, hS2⟩
    exact List.Pairwise.cons (fun b hb => ⟨hR1 b hb, hS1 b hb⟩) (pairwise_and hR2 hS2)

theorem diary_ratings_keys (db : DB) :
    (get_diary_ratings db).map Prod.fst =
      insSort ratLeB ((diaryJoin db).filterMap (fun dm => dm.2.rating)).dedup := by
  unfold get_diary_ratings
  rw [List.map_map]
  have hc : (Prod.fst ∘ fun r : Rat =>
      (r, ((diaryJoin db).filterMap (fun dm => dm.2.rating)).count r)) = id :=
    funext (fun r => rfl)
  rw [hc, List.map_id]

theorem diary_ratings_sorted (db : DB) :
    ((get_diary_ratings db).map Prod.fst).Pairwise (fun a b => a < b) := by
  rw [diary_ratings_keys]
  have hle := (pairwise_insSort ratLeB ratLeB_total ratLeB_trans
    ((diaryJoin db).filterMap (fun dm => dm.2.rating)).dedup).imp
    (fun hab => by
      unfold ratLeB at hab
      simpa using hab)
  have hnd : (insSort ratLeB ((diaryJoin db).filterMap (fun dm => dm.2.rating)).dedup).Nodup :=
    ((perm_insSort ratLeB _).nodup_iff).mpr (List.nodup_dedup _)
  have hand := pairwise_and hle hnd
  exact hand.imp (fun hab => lt_of_le_of_ne hab.1 hab.2)

theorem diary_ratings_sum (db : DB) :
    ((get_diary_ratings db).map Prod.snd).sum = (ratedEvents db).length := by
  unfold get_diary_ratings
  rw [List.map_map]
  have hc : (Prod.snd ∘ fun r : Rat =>
      (r, ((diaryJoin db).filterMap (fun dm => dm.2.rating)).count r)) =
      fun r => ((diaryJoin db).filterMap (fun dm => dm.2.rating)).count r :=
    funext (fun r => rfl)
  rw [hc]
  have hperm := (perm_insSort ratLeB
    ((diaryJoin db).filterMap (fun dm => dm.2.rating)).dedup).map
    (fun r => ((diaryJoin db).filterMap (fun dm => dm.2.rating)).count r)
  rw [hperm.sum_eq]
  rw [List.sum_map_count_dedup_eq_length]
  exact length_filterMap_eq_length_filter (fun dm : DiaryRow × MovieRow => dm.2.rating)
    (diaryJoin db)

theorem diary_ratings_count (db : DB) (r : Rat) (c : Nat)
    (h : (r, c) ∈ get_diary_ratings db) : c = (eventsRated db r).length := by
  unfold get_diary_ratings at h
  rcases List.mem_map.mp h with ⟨k, _, hkeq⟩
  have hk1 : k = r := congrArg Prod.fst hkeq
  have hk2 : ((diaryJoin db).filterMap (fun dm => dm.2.rating)).count k = c :=
    congrArg Prod.snd hkeq
  subst hk1
  rw [← hk2]
  rw [count_filterMap_eq_countP]
  rw [List.countP_eq_length_filter]
  rfl

/-! ## build / filesystem lemmas -/

theorem fsLookup_write (fs : FS) (p : String) (d : DB) :
    fsLookup (fsWrite fs p d) p = some d := by
  unfold fsLookup fsWrite
  simp [List.find?]

theorem fsRemove_cons_keep (e : String × DB) (l : FS) (p : String)
    (h : decide (e.1 = p) = false) : fsRemove (e :: l) p = e :: fsRemove l p := by
  unfold fsRemove
  simp [List.filter, h]

theorem build_eq (api : Api) (rows : List (List String)) (fs : FS) :
    build api rows fs =
      (match process_csv api (buildStartStore fs) rows with
       | .ok db1 => (.ok (), fsWrite (buildRemoveStep fs) dbPath db1)
       | .error e => (.error e, fsWrite (buildRemoveStep fs) dbPath (buildStartStore fs))) := rfl

theorem build_ok_store (api : Api) (rows : List (List String)) (fs : FS) (db1 : DB)
    (h : process_csv api (buildStartStore fs) rows = .ok db1) :
    build api rows fs = (.ok (), fsWrite (buildRemoveStep fs) dbPath db1) ∧
    fsLookup (build api rows fs).2 dbPath = some db1 := by
  rw [build_eq, h]
  exact ⟨rfl, fsLookup_write _ _ _⟩

theorem build_error_store (api : Api) (rows : List (List String)) (fs : FS) (e : Unit)
    (h : process_csv api (buildStartStore fs) rows = .error e) :
    build api rows fs = (.error e, fsWrite (buildRemoveStep fs) dbPath (buildStartStore fs)) ∧
    fsLookup (build api rows fs).2 dbPath = some (buildStartStore fs) := by
  rw [build_eq, h]
  exact ⟨rfl, fsLookup_write _ _ _⟩

theorem buildStartStore_of_write (fs : FS) (d : DB) :
    buildStartStore (fsWrite fs dbPath d) = d := by
  unfold buildStartStore buildRemoveStep buildRemovePaths fsWrite
  rw [List.foldl_cons, List.foldl_cons, List.foldl_cons, List.foldl_nil]
  rw [fsRemove_cons_keep _ _ _ (show decide (dbPath = "movies.db") = false by decide),
    fsRemove_cons_keep _ _ _ (show decide (dbPath = "movies.db-wal") = false by decide),
    fsRemove_cons_keep _ _ _ (show decide (dbPath = "movies.db-shm") = false by decide)]
  unfold fsLookup
  simp [List.find?]

theorem mainDiary_none (fs : FS) (rows : List (List String))
    (h : fsLookup fs dbPath = none) : mainDiaryOption fs rows = (.error (), fs) := by
  unfold mainDiaryOption
  rw [h]

theorem mainDiary_some (fs : FS) (rows : List (List String)) (db0 : DB)
    (h : fsLookup fs dbPath = some db0) :
    mainDiaryOption fs rows = (.ok (), fsWrite fs dbPath (diaryMerge db0 rows)) := by
  unfold mainDiaryOption
  rw [h]

/-! ## zip helpers for the cast listing -/

theorem map_zipWith_listing (db' : DB) (mid : Nat) :
    ∀ (pids : List Nat) (os : List Nat),
      (List.zipWith (fun pid o => CastRow.mk mid pid o) pids os).map
        (fun c => (c.billing_order, personName db' c.person_id))
      = List.zipWith (fun pid o => (o, personName db' pid)) pids os
  | [], _ => rfl
  | _ :: _, [] => rfl
  | p :: pt, o :: ot => by
    simp only [List.zipWith_cons_cons, List.map_cons]
    rw [map_zipWith_listing db' mid pt ot]

theorem zipWith_swap_eq (f : Nat → Option String) :
    ∀ (pids : List Nat) (ss : List (Option String)) (os : List Nat),
      pids.map f = ss →
      List.zipWith (fun pid o => (o, f pid)) pids os = os.zip ss
  | [], ss, os, h => by
    rw [← h]
    simp
  | p :: pt, ss, os, h => by
    cases ss with
    | nil => cases h
    | cons s st =>
      cases os with
      | nil => rfl
      | cons o ot =>
        rw [List.map_cons] at h
        injection h with h1 h2
        simp only [List.zipWith_cons_cons, List.zip_cons_cons, h1]
        rw [zipWith_swap_eq f pt st ot h2]

/-! ## Claim theorems -/

theorem find_tmdb_none_of_not_mem {M : List MovieRow} {t : Nat} (h : t ∉ tmdbs M) :
    M.find? (fun m => decide (m.tmdb_id = t)) = none := by
  rw [List.find?_eq_none]
  intro m hm
  simp only [decide_eq_true_eq]
  intro he
  exact h (List.mem_map.mpr ⟨m, hm, he⟩)

/-- C1: the claim says Build deletes the prior persisted store (database file
plus journal sidecars) before the merge, so the store visible to the merge
holds no prior rows.  The code removes `movies.db`, `movies.db-wal`,
`movies.db-shm` relative to the working directory while every connection
opens `data/movies.db`, and `create_tables` is `CREATE TABLE IF NOT EXISTS`;
so a prior store at `data/movies.db` — here one Movie, Person, CastLink and
WatchEvent row — survives wholly visible to the merge, and even a full Build
run over an empty source leaves it persisted. -/
theorem c1_build_does_not_wipe_prior_store :
    buildStartStore fsPrior = dbPrior ∧
    dbPrior.movie ≠ [] ∧ dbPrior.person ≠ [] ∧
    dbPrior.movie_cast ≠ [] ∧ dbPrior.diary ≠ [] ∧
    dbPath ∉ buildRemovePaths ∧
    fsLookup (build apiOne [] fsPrior).2 dbPath = some dbPrior := by
  refine ⟨by decide, by decide, by decide, by decide, by decide, by decide, ?_⟩
  rfl

/-- C5: the claim says two events land in the same bucket of the returned
monthly-stats result iff their dates share the same 7-character prefix, so
same month of different years gives different buckets.  The SQL does group by
the prefix, but the Python re-keys each group row by `strftime("%b")`, which
drops the year: with events dated `"2023-01-05"` and `"2024-01-05"` (distinct
prefixes) the returned dict has a single bucket `"Jan"`, holding only the
later group (1 watch, not 2) — the 2023 group is overwritten, contradicting
the claim and the function's own docstring key `'January 2024'`. -/
theorem c5_monthly_stats_year_collapsed :
    (get_monthly_stats dbMonths).map (fun e => (e.1, e.2.watches, e.2.rewatches, e.2.minutes))
      = [("Jan", 1, 0, (100 : Int))] ∧
    (get_monthly_stats dbMonths).length = 1 ∧
    strTake "2023-01-05" 7 ≠ strTake "2024-01-05" 7 := by
  refine ⟨?_, ?_, by decide⟩ <;> rfl

/-- C9: the diary-merge operation (option 2 of `__main__`) requires persisted
state: with no database file at `DB_PATH` it fails with the precondition
error and leaves the filesystem — hence every WatchEvent table — untouched;
with persisted state it runs `diary()`, which only appends to the `diary`
table and never touches the other tables. -/
theorem c9_diary_requires_store (fs : FS) (rows : List (List String)) :
    (fsLookup fs dbPath = none → mainDiaryOption fs rows = (.error (), fs)) ∧
    (∀ db0, fsLookup fs dbPath = some db0 →
      mainDiaryOption fs rows = (.ok (), fsWrite fs dbPath (diaryMerge db0 rows)) ∧
      (diaryMerge db0 rows).movie = db0.movie ∧
      (diaryMerge db0 rows).person = db0.person ∧
      (diaryMerge db0 rows).movie_cast = db0.movie_cast ∧
      ∃ new, (diaryMerge db0 rows).diary = db0.diary ++ new) := by
  constructor
  · intro h
    exact mainDiary_none fs rows h
  · intro db0 h
    obtain ⟨hm, hp, hc, new, hd⟩ := diaryMerge_frame rows db0
    exact ⟨mainDiary_some fs rows db0 h, hm, hp, hc, new, hd⟩

theorem c9_diary_requires_store_witness :
    mainDiaryOption [] [] = (.error (), []) :=
  (c9_diary_requires_store [] []).1 rfl

/-- C10: when the first 10 non-empty resolved cast names contain a repeated
name, `replace_movie_cast` resolves the repeat to the same person id and the
second `INSERT INTO movie_cast` violates the `(movie_id, person_id)` primary
key, raising a storage error; under the build transaction discipline any such
error aborts the run and rolls the store back to its pre-run contents.  The
dense 1..N billing invariant is thus only guaranteed when the first 10 names
are pairwise distinct. -/
theorem c10_duplicate_cast_error (db : DB) (mid : Nat) (names : List String)
    (hpw : PW db) (hdup : ¬ (names.take 10).Nodup) :
    replace_movie_cast db mid names = .error () ∧
    (∀ api rows fs e, process_csv api (buildStartStore fs) rows = .error e →
      (build api rows fs).1 = .error e ∧
      fsLookup (build api rows fs).2 dbPath = some (buildStartStore fs)) := by
  refine ⟨replace_err db mid names hpw hdup, ?_⟩
  intro api rows fs e h
  obtain ⟨hb, hl⟩ := build_error_store api rows fs e h
  exact ⟨by rw [hb], hl⟩

theorem c10_duplicate_cast_error_witness :
    replace_movie_cast emptyDB 1 ["Alice", "Alice"] = .error () :=
  (c10_duplicate_cast_error emptyDB 1 ["Alice", "Alice"] (by decide) (by decide)).1

/-- C2: during a Build run a malformed row or an external-lookup failure
skips only that row — the loop body returns the store unchanged, and the
whole run equals the run over just the non-skipped rows — whereas a store
write that raises makes `build` roll the transaction back: the store at
`DB_PATH` after the failed run is exactly the store the run started from, so
no row processed in this run remains persisted. -/
theorem c2_row_skip_and_rollback :
    (∀ api db row, rowSkipped api row = true → processRow api db row = .ok db) ∧
    (∀ api db rows, process_csv api db rows =
      process_csv api db (rows.filter (fun row => !rowSkipped api row))) ∧
    (∀ api rows fs e, process_csv api (buildStartStore fs) rows = .error e →
      (build api rows fs).1 = .error e ∧
      fsLookup (build api rows fs).2 dbPath = some (buildStartStore fs)) := by
  refine ⟨?_, ?_, ?_⟩
  · intro api db row h
    apply processRow_skip
    unfold rowSkipped at h
    cases hres : resolveRow api row with
    | none => rfl
    | some r => rw [hres] at h; cases h
  · intro api db rows
    exact process_skip_filter api rows db
  · intro api rows fs e h
    obtain ⟨hb, hl⟩ := build_error_store api rows fs e h
    exact ⟨by rw [hb], hl⟩

theorem c2_row_skip_and_rollback_witness :
    (build apiDup rowsDup []).1 = .error () ∧
    fsLookup (build apiDup rowsDup []).2 dbPath = some (buildStartStore []) :=
  c2_row_skip_and_rollback.2.2 apiDup rowsDup [] () rfl

/-- C7: the rating-distribution query counts diary events grouped by the
joined movie's rating: the returned buckets are in strictly ascending rating
order, each bucket's count is exactly the number of diary events whose movie
carries that rating, and the bucket counts sum to the number of diary events
whose movie has a non-null rating (null-rated movies contribute no events). -/
theorem c7_rating_distribution (db : DB) :
    ((get_diary_ratings db).map Prod.fst).Pairwise (fun a b => a < b) ∧
    ((get_diary_ratings db).map Prod.snd).sum = (ratedEvents db).length ∧
    (∀ r c, (r, c) ∈ get_diary_ratings db → c = (eventsRated db r).length) :=
  ⟨diary_ratings_sorted db, diary_ratings_sum db,
   fun r c h => diary_ratings_count db r c h⟩

theorem c7_rating_distribution_witness :
    ((4 : Rat), 2) ∈ get_diary_ratings dbRated ∧ 2 = (eventsRated dbRated 4).length :=
  ⟨by decide, (c7_rating_distribution dbRated).2.2 4 2 (by decide)⟩

/-- C3: whenever `replace_movie_cast` succeeds, the movie's cast link set is
exactly the first `min(10, n)` supplied names (which `process_csv` feeds as
the non-empty resolved names in service order), with billing orders exactly
1..N dense and in order, read back through the person table; every other
movie's links are untouched (the previous set for this movie having been
deleted first); and in every store reachable by a `process_csv` run from the
empty store, no movie has more than 10 cast links. -/
theorem c3_cast_replacement (db : DB) (mid : Nat) (names : List String) (db' : DB)
    (hpw : PW db) (hok : replace_movie_cast db mid names = .ok db') :
    ((castFor db' mid).map (fun c => (c.billing_order, personName db' c.person_id))
      = (List.range' 1 (min 10 names.length)).zip ((names.take 10).map some)) ∧
    (castFor db' mid).length = min 10 names.length ∧
    (∀ m, m ≠ mid → castFor db' m = castFor db m) ∧
    (∀ api rows db2, process_csv api emptyDB rows = .ok db2 →
      ∀ m, (castFor db2 m).length ≤ 10) := by
  obtain ⟨hpw', _, _, _, _, _, hoth, pids, hlen, hcast, hmap⟩ :=
    replace_ok db mid names db' hpw hok
  refine ⟨?_, ?_, hoth, ?_⟩
  · rw [hcast, map_zipWith_listing]
    have h1 := zipWith_swap_eq (fun pid => personName db' pid) pids
      ((names.take 10).map some) (List.range' 1 (min 10 names.length)) hmap
    rw [h1]
  · rw [hcast, List.length_zipWith, List.length_range', hlen]
    exact Nat.min_self _
  · intro api rows db2 hok2 m
    refine process_cast_bound api rows emptyDB db2 ?_ hok2 m
    intro m2
    show (castFor emptyDB m2).length ≤ 10
    unfold castFor emptyDB
    simp

theorem c3_cast_replacement_witness :
    PW emptyDB ∧
    replace_movie_cast emptyDB 1 ["Alice", "Bob"] = .ok dbCastW ∧
    ((castFor dbCastW 1).map (fun c => (c.billing_order, personName dbCastW c.person_id))
      = (List.range' 1 (min 10 (["Alice", "Bob"] : List String).length)).zip
          (((["Alice", "Bob"] : List String).take 10).map some)) :=
  ⟨by decide, rfl,
   (c3_cast_replacement emptyDB 1 ["Alice", "Bob"] dbCastW (by decide) rfl).1⟩

/-- C8: for every surviving ratings row the resolved title is the CSV title
(the service title in `Details.title` is never read), and the Movie upsert is
keyed by the resolved external id: if the id is absent a fresh row is
appended, if present every one of the five non-key columns of the existing
row is overwritten with the freshly resolved values (full overwrite), the
table length is unchanged, and afterwards the row stored under that id
carries exactly the resolved values. -/
theorem c8_upsert_keyed_by_tmdb (api : Api) (row : List String) (r : ResolvedRow)
    (hres : resolveRow api row = some r) :
    r.title = csvTitle row ∧
    (∀ db : DB, r.tmdb_id ∉ tmdbs db.movie →
      (insert_or_update_movie db r.tmdb_id r.title r.director r.year r.length_min
        (some r.rating)).2.movie
        = db.movie ++ [⟨db.next_movie_id, r.tmdb_id, r.title, r.director, r.year,
            r.length_min, some r.rating⟩]) ∧
    (∀ db : DB, r.tmdb_id ∈ tmdbs db.movie →
      (insert_or_update_movie db r.tmdb_id r.title r.director r.year r.length_min
        (some r.rating)).2.movie
        = db.movie.map (fun m => if m.tmdb_id = r.tmdb_id then
            overwriteVals m ⟨r.title, r.director, r.year, r.length_min, some r.rating⟩ else m) ∧
      (insert_or_update_movie db r.tmdb_id r.title r.director r.year r.length_min
        (some r.rating)).2.movie.length = db.movie.length) ∧
    (∀ db : DB, valAt (insert_or_update_movie db r.tmdb_id r.title r.director r.year
        r.length_min (some r.rating)).2.movie r.tmdb_id
      = some ⟨r.title, r.director, r.year, r.length_min, some r.rating⟩) := by
  refine ⟨?_, ?_, ?_, ?_⟩
  · unfold resolveRow at hres
    split at hres
    · cases hres
    · split at hres
      · cases hres
      · split at hres
        · cases hres
        · split at hres
          · cases hres
          · cases hres
          · split at hres
            · cases hres
            · cases hres
              rfl
  · intro db hnm
    have hfn := find_tmdb_none_of_not_mem hnm
    obtain ⟨him, _, _, _, _, _, _⟩ :=
      iou_eq_mUpsert db r.tmdb_id r.title r.director r.year r.length_min (some r.rating)
    rw [him, mUpsert_none db.movie db.next_movie_id r.tmdb_id
      ⟨r.title, r.director, r.year, r.length_min, some r.rating⟩ hfn]
  · intro db hm
    obtain ⟨m0, hm0⟩ := find_tmdb_of_mem hm
    obtain ⟨him, _, _, _, _, _, _⟩ :=
      iou_eq_mUpsert db r.tmdb_id r.title r.director r.year r.length_min (some r.rating)
    rw [him, mUpsert_found db.movie db.next_movie_id r.tmdb_id
      ⟨r.title, r.director, r.year, r.length_min, some r.rating⟩ m0 hm0]
    exact ⟨rfl, by simp⟩
  · intro db
    obtain ⟨him, _, _, _, _, _, _⟩ :=
      iou_eq_mUpsert db r.tmdb_id r.title r.director r.year r.length_min (some r.rating)
    rw [him]
    exact valAt_mUpsert_self db.movie db.next_movie_id r.tmdb_id
      ⟨r.title, r.director, r.year, r.length_min, some r.rating⟩

theorem c8_upsert_keyed_by_tmdb_witness :
    resolveRow apiOne rowOne = some rOneW ∧ rOneW.title = csvTitle rowOne :=
  ⟨rfl, (c8_upsert_keyed_by_tmdb apiOne rowOne rOneW rfl).1⟩

theorem top_dir_eq (db : DB) (limit : Nat) :
    get_top_directors_highest_rated db limit =
      (insSort avgDescB
        ((((dirRows db).filterMap (fun dm => dm.2.director)).dedup.map (dirRankRow db)).filter
          (fun g => decide (1 < g.movie_count)))).take limit := rfl

theorem top_act_eq (db : DB) (limit : Nat) :
    get_top_actors_highest_rated db limit =
      (insSort avgDescB
        ((((actRows db).map (fun r => r.p.id)).dedup.map (actorRankRow db)).filter
          (fun g => decide (1 < g.movie_count)))).take limit := rfl

/-- C6: the top-K highest-rated director and actor queries exclude every
group with at most one distinct watched movie (counted over *all* of that
director's/person's diary events, so even a single maximum-rated movie cannot
appear); every returned row's average is the average over the group's
non-null ratings only; the returned rows are in descending average-rating
order; and at most K rows are returned. -/
theorem c6_top_rated_exclusions (db : DB) (limit : Nat) :
    (∀ nm, watchedDirMovies db nm ≤ 1 →
      ∀ g ∈ get_top_directors_highest_rated db limit, g.name ≠ nm) ∧
    (∀ g ∈ get_top_directors_highest_rated db limit,
      g.avg_rating = ratAvg0 (dirRatingsAll db g.name) ∧ 1 < g.movie_count) ∧
    (get_top_directors_highest_rated db limit).Pairwise
      (fun a b => b.avg_rating ≤ a.avg_rating) ∧
    (get_top_directors_highest_rated db limit).length ≤ limit ∧
    (∀ pid, watchedActMovies db pid ≤ 1 →
      actorRankRow db pid ∉ get_top_actors_highest_rated db limit) ∧
    (∀ g ∈ get_top_actors_highest_rated db limit,
      (∃ pid, g = actorRankRow db pid ∧ g.avg_rating = ratAvg0 (actRatingsAll db pid)) ∧
      1 < g.movie_count) ∧
    (get_top_actors_highest_rated db limit).Pairwise
      (fun a b => b.avg_rating ≤ a.avg_rating) ∧
    (get_top_actors_highest_rated db limit).length ≤ limit := by
  refine ⟨?_, ?_, ?_, ?_, ?_, ?_, ?_, ?_⟩
  · intro nm hle g hg hne
    obtain ⟨nm2, hgeq, hcount⟩ := dir_out_mem db limit g hg
    have hname : nm2 = nm := by rw [← hne, hgeq, dirRankRow_name]
    rw [hgeq] at hcount
    rw [hname] at hcount
    exact absurd (lt_of_lt_of_le hcount (le_trans (dirRankRow_count_le db nm) hle))
      (by omega)
  · intro g hg
    obtain ⟨nm2, hgeq, hcount⟩ := dir_out_mem db limit g hg
    refine ⟨?_, hcount⟩
    rw [hgeq]
    rw [dirRankRow_name]
    show (dirRankRow db nm2).avg_rating = ratAvg0 (dirRatingsAll db nm2)
    unfold dirRankRow
    simp only []
    rw [dirGroup_ratings]
  · rw [top_dir_eq]
    exact (sorted_avgDesc _).sublist (List.take_sublist _ _)
  · rw [top_dir_eq]
    exact List.length_take_le _ _
  · intro pid hle hmem
    obtain ⟨pid2, hgeq, hcount⟩ := act_out_mem db limit _ hmem
    exact absurd (lt_of_lt_of_le hcount (le_trans (actorRankRow_count_le db pid) hle))
      (by omega)
  · intro g hg
    obtain ⟨pid2, hgeq, hcount⟩ := act_out_mem db limit g hg
    refine ⟨⟨pid2, hgeq, ?_⟩, hcount⟩
    rw [hgeq]
    show (actorRankRow db pid2).avg_rating = ratAvg0 (actRatingsAll db pid2)
    unfold actorRankRow
    simp only []
    rw [actGroup_ratings]
  · rw [top_act_eq]
    exact (sorted_avgDesc _).sublist (List.take_sublist _ _)
  · rw [top_act_eq]
    exact List.length_take_le _ _

theorem c6_top_rated_exclusions_witness :
    (∀ g ∈ get_top_directors_highest_rated dbRank 5, g.name ≠ "Solo") ∧
    actorRankRow dbRank 1 ∉ get_top_actors_highest_rated dbRank 5 :=
  ⟨(c6_top_rated_exclusions dbRank 5).1 "Solo" (by decide),
   (c6_top_rated_exclusions dbRank 5).2.2.2.2.1 1 (by decide)⟩

/-- C4: running Build twice with the same ratings source and the same
external responses yields exactly the same Movie rows as running it once —
if the second run commits, its movie table is row-for-row the first run's; if
it aborts, the rollback restores the first run's store.  Moreover a
`process_csv` run preserves uniqueness of the external catalog id over the
movie table, and upserting an id that is already present updates the existing
row in place (table length and id set unchanged) rather than inserting. -/
theorem c4_build_idempotent_movies (api : Api) (rows : List (List String)) (fs : FS)
    (hnd : (tmdbs (buildStartStore fs).movie).Nodup)
    (hok : (build api rows fs).1 = .ok ()) :
    (∀ db1, fsLookup (build api rows fs).2 dbPath = some db1 →
      ∃ db2, fsLookup (build api rows ((build api rows fs).2)).2 dbPath = some db2 ∧
        db2.movie = db1.movie) ∧
    (∀ db db', (tmdbs db.movie).Nodup → process_csv api db rows = .ok db' →
      (tmdbs db'.movie).Nodup) ∧
    (∀ (db : DB) (t : Nat) (title : String) (dir : Option String) (y : Option Int)
        (len : Option Int) (rat : Option Rat), t ∈ tmdbs db.movie →
      (insert_or_update_movie db t title dir y len rat).2.movie.length = db.movie.length ∧
      tmdbs (insert_or_update_movie db t title dir y len rat).2.movie = tmdbs db.movie) := by
  refine ⟨?_, ?_, ?_⟩
  · cases hp : process_csv api (buildStartStore fs) rows with
    | error e =>
      exfalso
      rw [(build_error_store api rows fs e hp).1] at hok
      cases hok
    | ok dbone =>
      obtain ⟨hbuild, hlook⟩ := build_ok_store api rows fs dbone hp
      intro db1 hdb1
      rw [hlook] at hdb1
      injection hdb1 with hdb1
      subst hdb1
      have hfs2 : (build api rows fs).2 = fsWrite (buildRemoveStep fs) dbPath dbone :=
        congrArg Prod.snd hbuild
      have hss : buildStartStore ((build api rows fs).2) = dbone := by
        rw [hfs2]
        exact buildStartStore_of_write (buildRemoveStep fs) dbone
      obtain ⟨hfold1, _, _, _⟩ := process_movie api rows (buildStartStore fs) dbone hp
      cases hp2 : process_csv api dbone rows with
      | error e2 =>
        have hp2b : process_csv api (buildStartStore ((build api rows fs).2)) rows
            = .error e2 := by
          rw [hss]; exact hp2
        obtain ⟨_, hl2⟩ := build_error_store api rows ((build api rows fs).2) e2 hp2b
        exact ⟨buildStartStore ((build api rows fs).2), hl2, by rw [hss]⟩
      | ok dbtwo =>
        have hp2b : process_csv api (buildStartStore ((build api rows fs).2)) rows
            = .ok dbtwo := by
          rw [hss]; exact hp2
        obtain ⟨_, hl2⟩ := build_ok_store api rows ((build api rows fs).2) dbtwo hp2b
        refine ⟨dbtwo, hl2, ?_⟩
        obtain ⟨hfold2, _, _, _⟩ := process_movie api rows dbone dbtwo hp2
        have h1 : dbtwo.movie = ((upsertsOf api rows).foldl mUpsert
            (dbone.movie, dbone.next_movie_id)).1 := congrArg Prod.fst hfold2
        have h2 : dbone.movie = ((upsertsOf api rows).foldl mUpsert
            ((buildStartStore fs).movie, (buildStartStore fs).next_movie_id)).1 :=
          congrArg Prod.fst hfold1
        rw [h1, h2]
        exact mFold_idem (upsertsOf api rows) (buildStartStore fs).movie
          (buildStartStore fs).next_movie_id dbone.next_movie_id hnd
  · intro db db' hnd2 hpc
    obtain ⟨hfold, _, _, _⟩ := process_movie api rows db db' hpc
    have h1 : db'.movie = ((upsertsOf api rows).foldl mUpsert
        (db.movie, db.next_movie_id)).1 := congrArg Prod.fst hfold
    rw [h1]
    exact mFold_nodup _ _ _ hnd2
  · intro db t title dir y len rat hm
    obtain ⟨m0, hm0⟩ := find_tmdb_of_mem hm
    obtain ⟨him, _, _, _, _, _, _⟩ := iou_eq_mUpsert db t title dir y len rat
    rw [him]
    obtain ⟨ht, _, hlen⟩ := tmdbs_mUpsert_found db.movie db.next_movie_id t
      ⟨title, dir, y, len, rat⟩ m0 hm0
    exact ⟨hlen, ht⟩

theorem c4_build_idempotent_movies_witness :
    ∃ db2, fsLookup (build apiOne rowsOne ((build apiOne rowsOne []).2)).2 dbPath
        = some db2 ∧
      db2.movie = dbRun1.movie :=
  (c4_build_idempotent_movies apiOne rowsOne [] (by decide) rfl).1 dbRun1 rfl
